import Mathlib

/-!
Verification of the recipe-normalization pipeline of the norish repository.

The TypeScript sources are shallowly embedded as Lean definitions:

* JS strings are Lean `String`s (a wrapper around `List Char`); the JS string
  operations used by the code (`trim`, `toLowerCase`, `startsWith`, substring
  search) are defined explicitly on the underlying character lists so that
  theorems can reason about them.  The `decode` function of the external
  `html-entities` npm package is a pure entity decoder; the embedding models
  it as the identity (all statements range over already-decoded strings).
* Fallible code is embedded with `Option`/`Except`.
* JSON values reaching the parsers are embedded by the inductive `JNode`
  (null, string, integer number, array, object), with objects restricted to
  the fields the parsers actually read.
* Machine numbers in the parsed positions are natural numbers / integers /
  rationals as appropriate (`parseInt` on a digit run yields an integer;
  no floating point enters the verified statements).
-/

namespace Norish

/-! ## JavaScript string primitives -/

/-- Whitespace recognised by the embedding of JS `trim` / `\s`
(space, tab, newline, carriage return). -/
def isWs (c : Char) : Bool :=
  c = ' ' || c = '\t' || c = '\n' || c = '\r'

/-- `String.prototype.trim`: drop whitespace from both ends. -/
def trimChars (cs : List Char) : List Char :=
  ((cs.dropWhile isWs).reverse.dropWhile isWs).reverse

/-- JS `trim` on a string. -/
def jsTrim (s : String) : String := ⟨trimChars s.data⟩

/-- JS `toLowerCase` (restricted to the per-character lowering of `Char.toLower`). -/
def jsLower (s : String) : String := ⟨s.data.map Char.toLower⟩

/-- Is `pat` a contiguous substring of `l` (JS `String.prototype.includes`)? -/
def listSub (pat : List Char) : List Char → Bool
  | [] => pat.isEmpty
  | c :: t => pat.isPrefixOf (c :: t) || listSub pat t

/-- JS `includes` on strings. -/
def strIncludes (s pat : String) : Bool := listSub pat.data s.data

/-- JS `startsWith("#")`. -/
def startsWithHash (s : String) : Bool := s.data.head? = some '#'

/-! ## Digit runs and `parseInt`

JS `parseInt` applied to a regex group `\d+` converts the decimal digit run
to an integer.  The embedding reads the run with `takeWhile Char.isDigit`
and evaluates it with `Nat.ofDigits`. -/

/-- Value of a decimal digit character. -/
def digitVal (c : Char) : Nat := c.toNat - 48

/-- `parseInt` on a (non-empty) decimal digit run. -/
def parseNatDigits (ds : List Char) : Nat :=
  Nat.ofDigits 10 ((ds.map digitVal).reverse)

/-- Decimal rendering of a natural number, as JS produces it in a template
string (`"0"` for zero, no leading zeros otherwise). -/
def natChars (n : Nat) : List Char :=
  if n = 0 then ['0']
  else ((Nat.digits 10 n).map (fun d => Char.ofNat (48 + d))).reverse

theorem digitChar_isDigit {d : Nat} (hd : d < 10) :
    (Char.ofNat (48 + d)).isDigit = true := by
  interval_cases d <;> decide

theorem digitVal_digitChar {d : Nat} (hd : d < 10) :
    digitVal (Char.ofNat (48 + d)) = d := by
  interval_cases d <;> decide

theorem natChars_all_digit {n : Nat} : ∀ c ∈ natChars n, c.isDigit = true := by
  intro c hc
  unfold natChars at hc
  by_cases h : n = 0
  · simp [h] at hc
    simp [hc]
  · simp [h, List.mem_reverse, List.mem_map] at hc
    obtain ⟨d, hd, rfl⟩ := hc
    exact digitChar_isDigit (Nat.digits_lt_base (by norm_num) hd)

theorem natChars_ne_nil {n : Nat} : natChars n ≠ [] := by
  unfold natChars
  by_cases h : n = 0
  · simp [h]
  · simp [h, Nat.digits_ne_nil_iff_ne_zero.mpr h]

theorem parseNatDigits_natChars (n : Nat) : parseNatDigits (natChars n) = n := by
  unfold parseNatDigits natChars
  by_cases h : n = 0
  · simp [h, digitVal, Nat.ofDigits]
  · simp only [h, if_false, List.map_reverse, List.reverse_reverse, List.map_map]
    have : (Nat.digits 10 n).map (digitVal ∘ fun d => Char.ofNat (48 + d)) =
        (Nat.digits 10 n).map id := by
      apply List.map_congr_left
      intro d hd
      exact digitVal_digitChar (Nat.digits_lt_base (by norm_num) hd)
    rw [this, List.map_id, Nat.ofDigits_digits]

theorem takeWhile_append_all {p : Char → Bool} {l₁ l₂ : List Char}
    (h : ∀ a ∈ l₁, p a = true) :
    (l₁ ++ l₂).takeWhile p = l₁ ++ l₂.takeWhile p := by
  induction l₁ with
  | nil => simp
  | cons a t ih =>
    have ha : p a = true := h a (by simp)
    simp [List.takeWhile_cons, ha]
    exact ih fun b hb => h b (by simp [hb])

theorem dropWhile_append_all {p : Char → Bool} {l₁ l₂ : List Char}
    (h : ∀ a ∈ l₁, p a = true) :
    (l₁ ++ l₂).dropWhile p = l₂.dropWhile p := by
  induction l₁ with
  | nil => simp
  | cons a t ih =>
    have ha : p a = true := h a (by simp)
    simp [List.dropWhile_cons, ha]
    exact ih fun b hb => h b (by simp [hb])

/-! ## `parseIsoDuration` (src/lib/helpers.ts)

```js
const m = /PT(?:(\d+)H)?(?:(\d+)M)?/i.exec(iso || "");
if (!m) return undefined;
const hours = m[1] ? parseInt(m[1]) : 0;
const minutes = m[2] ? parseInt(m[2]) : 0;
return hours * 60 + minutes;
```

The regex is unanchored, so `exec` matches at the first occurrence of the
(case-insensitive) literal `PT`; both groups are optional, so the match
always succeeds there.  A group matches exactly when the maximal digit run
at its position is non-empty and immediately followed by `H` / `M`
(case-insensitively); if the hour group fails, the minute group retries at
the position right after `PT`. -/

/-- Suffix after the first case-insensitive occurrence of `PT`,
`none` when the input has no such occurrence (regex fails to match). -/
def ptTail : List Char → Option (List Char)
  | c1 :: c2 :: rest =>
    if c1.toLower = 'p' ∧ c2.toLower = 't' then some rest
    else ptTail (c2 :: rest)
  | _ => none

/-- One optional group `(?:(\d+)X)?` of the duration regex: a non-empty
digit run immediately followed by the marker letter (case-insensitive). -/
def isoGroup (marker : Char) (cs : List Char) : Option (Nat × List Char) :=
  let ds := cs.takeWhile Char.isDigit
  if ds.isEmpty then none
  else
    match cs.dropWhile Char.isDigit with
    | c :: rest => if c.toLower = marker then some (parseNatDigits ds, rest) else none
    | [] => none

/-- `hours * 60 + minutes` read from the text after the matched `PT`:
each group contributes its `parseInt` value when it matched, else `0`. -/
def isoFromTail (tail : List Char) : Nat :=
  match isoGroup 'h' tail with
  | some (h, rest) =>
    h * 60 + (match isoGroup 'm' rest with | some (m, _) => m | none => 0)
  | none =>
    0 * 60 + (match isoGroup 'm' tail with | some (m, _) => m | none => 0)

/-- `parseIsoDuration` from src/lib/helpers.ts. -/
def parseIsoDuration (s : String) : Option Nat :=
  (ptTail s.data).map isoFromTail

/-- The string `PT{h}H{m}M` (decimal renderings of `h` and `m`). -/
def renderIso (h m : Nat) : String :=
  ⟨'P' :: 'T' :: (natChars h ++ 'H' :: (natChars m ++ ['M']))⟩

/-- The input contains the substring `PT` case-insensitively. -/
def containsPT (cs : List Char) : Prop :=
  ∃ pre suf, cs.map Char.toLower = pre ++ 'p' :: 't' :: suf

theorem isoGroup_render (marker : Char) (n : Nat) (c : Char) (rest : List Char)
    (hc : c.isDigit = false) (hcl : c.toLower = marker) :
    isoGroup marker (natChars n ++ c :: rest) = some (n, rest) := by
  unfold isoGroup
  rw [takeWhile_append_all natChars_all_digit,
    dropWhile_append_all natChars_all_digit]
  simp [List.takeWhile_cons, List.dropWhile_cons, hc, hcl, natChars_ne_nil,
    parseNatDigits_natChars]

theorem ptTail_isSome_iff (cs : List Char) :
    (ptTail cs).isSome = true ↔ containsPT cs := by
  induction cs with
  | nil => simp [ptTail, containsPT]
  | cons c1 t ih =>
    match t, ih with
    | [], _ =>
      rw [show ptTail [c1] = none from rfl]
      simp only [Option.isSome_none, Bool.false_eq_true, false_iff]
      rintro ⟨pre, suf, h⟩
      have := congrArg List.length h
      simp at this
      omega
    | c2 :: rest, ih =>
      by_cases hpt : c1.toLower = 'p' ∧ c2.toLower = 't'
      · rw [show ptTail (c1 :: c2 :: rest) = some rest by rw [ptTail, if_pos hpt]]
        simp only [Option.isSome_some, true_iff]
        exact ⟨[], rest.map Char.toLower, by simp [hpt.1, hpt.2]⟩
      · rw [show ptTail (c1 :: c2 :: rest) = ptTail (c2 :: rest) by
          rw [ptTail, if_neg hpt]]
        rw [ih]
        constructor
        · rintro ⟨pre, suf, h⟩
          exact ⟨c1.toLower :: pre, suf, by simp only [List.map_cons,
            List.cons_append, h]⟩
        · rintro ⟨pre, suf, h⟩
          rcases pre with _ | ⟨a, pre⟩
          · exfalso
            simp only [List.map_cons, List.nil_append, List.cons.injEq] at h
            exact hpt ⟨h.1, h.2.1⟩
          · simp only [List.map_cons, List.cons_append, List.cons.injEq] at h
            exact ⟨pre, suf, by simp only [List.map_cons]; exact h.2⟩

theorem ptTail_PT (rest : List Char) : ptTail ('P' :: 'T' :: rest) = some rest := by
  simp only [ptTail]
  rw [if_pos ⟨by decide, by decide⟩]

theorem parseIsoDuration_eq_none_iff (s : String) :
    parseIsoDuration s = none ↔ ¬ containsPT s.data := by
  rw [← ptTail_isSome_iff]
  unfold parseIsoDuration
  cases hpt : ptTail s.data with
  | none => simp
  | some tail =>
    constructor
    · intro h
      exfalso
      rcases h1 : isoGroup 'h' tail with _ | ⟨hh, rest⟩
      · rcases h2 : isoGroup 'm' tail with _ | ⟨mm, r⟩ <;> simp [h1, h2] at h
      · rcases h2 : isoGroup 'm' rest with _ | ⟨mm, r⟩ <;> simp [h1, h2] at h
    · intro hc
      simp at hc

/-- C3 (amended): for every ISO-8601 string of the form `PT{h}H{m}M`,
`parseIsoDuration` returns `h*60+m` minutes; it returns `undefined`
exactly for the inputs that contain no case-insensitive occurrence of the
literal `PT` (the regex being unanchored with both groups optional, any
input containing `PT` — e.g. the malformed `"PT5S"` — matches and yields a
number, possibly `0`, rather than `undefined`). -/
theorem claimC3_prop :
    (∀ h m : Nat, parseIsoDuration (renderIso h m) = some (h * 60 + m))
    ∧ (∀ s : String, parseIsoDuration s = none ↔ ¬ containsPT s.data) := by
  constructor
  · intro h m
    show ((ptTail ('P' :: 'T' :: (natChars h ++ 'H' :: (natChars m ++ ['M'])))).map
      isoFromTail) = some (h * 60 + m)
    rw [ptTail_PT]
    simp only [Option.map_some', Option.some.injEq]
    unfold isoFromTail
    rw [show natChars m ++ ['M'] = natChars m ++ 'M' :: [] from rfl] at *
    simp only [isoGroup_render 'h' h 'H' (natChars m ++ 'M' :: []) (by decide) (by decide),
      isoGroup_render 'm' m 'M' [] (by decide) (by decide)]
  · exact parseIsoDuration_eq_none_iff

/-- C3 counterexample: the claim says malformed / non-matching input yields
`undefined`, never `0`; but the unanchored regex matches the `PT` prefix of
the (malformed for the claimed grammar) input `"PT5S"` with both optional
groups absent, so `parseIsoDuration` returns `0`. -/
theorem claimC3_counterexample :
    parseIsoDuration "PT5S" = some 0 ∧ parseIsoDuration "PT5S" ≠ none := by
  constructor <;> decide

/-- C3 witness: a concrete instance of the amended theorem. -/
theorem claimC3_witness : parseIsoDuration (renderIso 1 30) = some 90 :=
  claimC3_prop.1 1 30

/-! ## `deduplicateSteps` (src/server/parser/parsers/steps.ts)

```js
const seenSteps = new Set<string>();
return rawSteps.filter((s) => {
  const trimmed = s?.trim();
  if (!trimmed) return false;
  if (trimmed.startsWith("#")) return true;
  const key = trimmed.toLowerCase();
  if (seenSteps.has(key)) return false;
  seenSteps.add(key);
  return true;
});
```
-/

/-- Dedup key of a step: the trimmed, lowercased text. -/
def stepKey (s : String) : String := jsLower (jsTrim s)

/-- A step that participates in deduplication: non-blank and not a heading
after trimming. -/
def stepOk (s : String) : Bool :=
  !(jsTrim s).data.isEmpty && !startsWithHash (jsTrim s)

/-- The `filter` of `deduplicateSteps`, with the mutable `seenSteps` set made
an explicit accumulator. -/
def dedupGo (seen : List String) : List String → List String
  | [] => []
  | s :: rest =>
    if (jsTrim s).data.isEmpty then dedupGo seen rest
    else if startsWithHash (jsTrim s) then s :: dedupGo seen rest
    else if stepKey s ∈ seen then dedupGo seen rest
    else s :: dedupGo (stepKey s :: seen) rest

/-- `deduplicateSteps` from src/server/parser/parsers/steps.ts. -/
def deduplicateSteps (rawSteps : List String) : List String := dedupGo [] rawSteps

theorem trim_of_head_hash {s : String} (h : startsWithHash s = true) :
    (jsTrim s).data ≠ [] ∧ startsWithHash (jsTrim s) = true := by
  unfold startsWithHash at h
  rcases hd : s.data with _ | ⟨c, t⟩
  · rw [hd] at h; simp at h
  · rw [hd] at h
    simp only [List.head?_cons, Option.some.injEq, decide_eq_true_eq] at h
    subst h
    have hdrop : ∀ l : List Char, (l ++ ['#']).dropWhile isWs =
        l.dropWhile isWs ++ ['#'] := by
      intro l
      induction l with
      | nil => simp [List.dropWhile, isWs]
      | cons a l ih =>
        cases ha : isWs a <;> simp [List.dropWhile_cons, ha, ih]
    have : trimChars ('#' :: t) =
        '#' :: (t.reverse.dropWhile isWs).reverse := by
      unfold trimChars
      rw [show List.dropWhile isWs ('#' :: t) = '#' :: t by
        simp [List.dropWhile_cons, isWs]]
      rw [show ('#' :: t).reverse = t.reverse ++ ['#'] by simp]
      rw [hdrop, List.reverse_append]
      simp
    constructor
    · show (jsTrim s).data ≠ []
      unfold jsTrim
      rw [hd]
      simp [this]
    · show startsWithHash (jsTrim s) = true
      unfold startsWithHash jsTrim
      rw [hd]
      simp [this]

theorem not_hash_of_skipped {s : String}
    (h : ¬ startsWithHash (jsTrim s) = true ∨ (jsTrim s).data = []) :
    startsWithHash s = false := by
  cases hs : startsWithHash s
  · rfl
  · rcases trim_of_head_hash hs with ⟨hne, hh⟩
    rcases h with h | h
    · exact absurd hh h
    · exact absurd h hne

theorem dedupGo_idem (l : List String) :
    ∀ seen, dedupGo seen (dedupGo seen l) = dedupGo seen l := by
  induction l with
  | nil => intro seen; rfl
  | cons s rest ih =>
    intro seen
    by_cases h1 : (jsTrim s).data.isEmpty
    · simp only [dedupGo, if_pos h1, ih]
    · by_cases h2 : startsWithHash (jsTrim s) = true
      · simp only [dedupGo, if_neg h1, if_pos h2, ih]
      · by_cases h3 : stepKey s ∈ seen
        · simp only [dedupGo, if_neg h1, if_neg h2, if_pos h3, ih]
        · simp only [dedupGo, if_neg h1, if_neg h2, if_neg h3, ih]

theorem dedupGo_filter_hash (l : List String) :
    ∀ seen, (dedupGo seen l).filter startsWithHash = l.filter startsWithHash := by
  induction l with
  | nil => intro seen; rfl
  | cons s rest ih =>
    intro seen
    by_cases h1 : (jsTrim s).data.isEmpty
    · have hs : startsWithHash s = false :=
        not_hash_of_skipped (Or.inr (by simpa using h1))
      simp only [dedupGo, if_pos h1, List.filter_cons, hs, ih]
      simp
    · by_cases h2 : startsWithHash (jsTrim s) = true
      · simp only [dedupGo, if_neg h1, if_pos h2, List.filter_cons, ih]
      · by_cases h3 : stepKey s ∈ seen
        · have hs : startsWithHash s = false := not_hash_of_skipped (Or.inl h2)
          simp only [dedupGo, if_neg h1, if_neg h2, if_pos h3, List.filter_cons, hs, ih]
          simp
        · simp only [dedupGo, if_neg h1, if_neg h2, if_neg h3, List.filter_cons, ih]

theorem dedupGo_sublist (l : List String) :
    ∀ seen, (dedupGo seen l).Sublist l := by
  induction l with
  | nil => intro seen; simp [dedupGo]
  | cons s rest ih =>
    intro seen
    by_cases h1 : (jsTrim s).data.isEmpty
    · simp only [dedupGo, if_pos h1]
      exact (ih seen).cons s
    · by_cases h2 : startsWithHash (jsTrim s) = true
      · simp only [dedupGo, if_neg h1, if_pos h2]
        exact (ih seen).cons₂ s
      · by_cases h3 : stepKey s ∈ seen
        · simp only [dedupGo, if_neg h1, if_neg h2, if_pos h3]
          exact (ih seen).cons s
        · simp only [dedupGo, if_neg h1, if_neg h2, if_neg h3]
          exact (ih _).cons₂ s

theorem dedupGo_keys (l : List String) :
    ∀ seen, (∀ s ∈ dedupGo seen l, stepOk s = true → stepKey s ∉ seen)
      ∧ (dedupGo seen l).Pairwise
        (fun a b => stepOk a = true → stepOk b = true → stepKey a ≠ stepKey b) := by
  induction l with
  | nil => intro seen; simp [dedupGo]
  | cons s rest ih =>
    intro seen
    by_cases h1 : (jsTrim s).data.isEmpty
    · simpa only [dedupGo, if_pos h1] using ih seen
    · by_cases h2 : startsWithHash (jsTrim s) = true
      · have hok : stepOk s = false := by
          unfold stepOk
          simp [h2]
        simp only [dedupGo, if_neg h1, if_pos h2]
        constructor
        · intro u hu hok'
          rcases List.mem_cons.mp hu with rfl | hu
          · rw [hok] at hok'; cases hok'
          · exact (ih seen).1 u hu hok'
        · refine List.Pairwise.cons ?_ (ih seen).2
          intro b _ hoka
          rw [hok] at hoka; cases hoka
      · by_cases h3 : stepKey s ∈ seen
        · simpa only [dedupGo, if_neg h1, if_neg h2, if_pos h3] using ih seen
        · simp only [dedupGo, if_neg h1, if_neg h2, if_neg h3]
          have hsub := (ih (stepKey s :: seen)).1
          constructor
          · intro u hu hok'
            rcases List.mem_cons.mp hu with rfl | hu
            · exact h3
            · intro habs
              exact hsub u hu hok' (List.mem_cons_of_mem _ habs)
          · refine List.Pairwise.cons ?_ (ih (stepKey s :: seen)).2
            intro b hb _ hokb
            intro habs
            exact hsub b hb hokb (habs ▸ List.mem_cons_self _ _)

theorem dedupGo_first_kept (l : List String) :
    ∀ seen k u, k ∉ seen →
      l.find? (fun t => stepOk t && (stepKey t == k)) = some u →
      u ∈ dedupGo seen l := by
  induction l with
  | nil => intro seen k u _ hfind; simp [List.find?] at hfind
  | cons s rest ih =>
    intro seen k u hk hfind
    rw [List.find?_cons] at hfind
    by_cases hmatch : (stepOk s && (stepKey s == k)) = true
    · simp only [hmatch] at hfind
      injection hfind with hfind
      subst hfind
      have hok : stepOk s = true := (Bool.and_eq_true_iff.mp hmatch).1
      have hkey : stepKey s = k := by
        have := (Bool.and_eq_true_iff.mp hmatch).2
        exact eq_of_beq this
      have h1 : ¬ (jsTrim s).data.isEmpty := by
        unfold stepOk at hok
        rcases Bool.and_eq_true_iff.mp hok with ⟨ha, _⟩
        simpa using ha
      have h2 : ¬ startsWithHash (jsTrim s) = true := by
        unfold stepOk at hok
        rcases Bool.and_eq_true_iff.mp hok with ⟨_, hb⟩
        simpa using hb
      have h3 : stepKey s ∉ seen := hkey ▸ hk
      simp only [dedupGo, if_neg h1, if_neg h2, if_neg h3]
      exact List.mem_cons_self _ _
    · have hm' : (stepOk s && (stepKey s == k)) = false := by
        simpa using hmatch
      simp only [hm'] at hfind
      by_cases h1 : (jsTrim s).data.isEmpty
      · simp only [dedupGo, if_pos h1]
        exact ih seen k u hk hfind
      · by_cases h2 : startsWithHash (jsTrim s) = true
        · simp only [dedupGo, if_neg h1, if_pos h2]
          exact List.mem_cons_of_mem _ (ih seen k u hk hfind)
        · by_cases h3 : stepKey s ∈ seen
          · simp only [dedupGo, if_neg h1, if_neg h2, if_pos h3]
            exact ih seen k u hk hfind
          · simp only [dedupGo, if_neg h1, if_neg h2, if_neg h3]
            have hkey : stepKey s ≠ k := by
              intro habs
              apply hmatch
              have hok : stepOk s = true := by
                unfold stepOk
                simp [h1, h2]
              simp [hok, habs]
            refine List.mem_cons_of_mem _ (ih _ k u ?_ hfind)
            intro habs
            rcases List.mem_cons.mp habs with habs | habs
            · exact hkey habs.symm
            · exact hk habs

/-- C6: `deduplicateSteps` is idempotent; strings starting with `#`
(headings) are never removed, even when textually identical to an earlier
heading; among the surviving steps no two non-heading entries share a
case-insensitive key; the output is a sublist of the input (order
preserved, nothing reordered); and for any key the first non-heading
occurrence in the input is kept. -/
theorem claimC6_prop (l : List String) :
    deduplicateSteps (deduplicateSteps l) = deduplicateSteps l
    ∧ (deduplicateSteps l).filter startsWithHash = l.filter startsWithHash
    ∧ (deduplicateSteps l).Sublist l
    ∧ (deduplicateSteps l).Pairwise
        (fun a b => stepOk a = true → stepOk b = true → stepKey a ≠ stepKey b)
    ∧ (∀ k u, l.find? (fun t => stepOk t && (stepKey t == k)) = some u →
        u ∈ deduplicateSteps l) :=
  ⟨dedupGo_idem l [],
   dedupGo_filter_hash l [],
   dedupGo_sublist l [],
   (dedupGo_keys l []).2,
   fun k u hfind => dedupGo_first_kept l [] k u (by simp) hfind⟩

/-- C6 witness: the theorem instantiated on a concrete step list with a
repeated heading and a case-insensitive duplicate step. -/
theorem claimC6_witness :
    deduplicateSteps ["# A", "Mix", "mix", "# A"] = ["# A", "Mix", "# A"]
    ∧ "Mix" ∈ deduplicateSteps ["# A", "Mix", "mix", "# A"] :=
  ⟨by decide,
   (claimC6_prop ["# A", "Mix", "mix", "# A"]).2.2.2.2 "mix" "Mix" (by decide)⟩

/-! ## JSON-LD instruction trees (src/server/parser/parsers/steps.ts)

`recipeInstructions` is arbitrary JSON.  The embedding `JNode` covers the
value shapes the walker inspects: null, strings, (integer) numbers, arrays,
and objects restricted to the fields the walker reads (`@type`, `type`,
`name`, `text`, `item`, `itemListElement`, in that order below). -/

inductive JNode where
  | jnull : JNode
  | jstr : String → JNode
  | jnum : Int → JNode
  | jarr : List JNode → JNode
  | jobj : Option JNode → Option JNode → Option JNode → Option JNode →
      Option JNode → Option JNode → JNode

open JNode

/-- Is the value the JSON null? -/
def isNullNode : JNode → Bool
  | jnull => true
  | _ => false

/-- JS `??`: take the right operand when the left is absent or null. -/
def coalesce (a b : Option JNode) : Option JNode :=
  match a with
  | none => b
  | some jnull => b
  | some v => some v

/-- JS `String(v)` restricted to the embedded value shapes (an array joins
its elements with `,`, null elements of an array render as empty). -/
def jsString : JNode → String
  | jnull => "null"
  | jstr s => s
  | jnum n => toString n
  | jobj _ _ _ _ _ _ => "[object Object]"
  | jarr l =>
    String.intercalate "," (l.attach.map fun x =>
      if isNullNode x.1 then "" else jsString x.1)
termination_by n => sizeOf n
decreasing_by
  have := List.sizeOf_lt_of_mem x.2
  simp at this ⊢
  omega

/-- `getNodeType` from steps.ts: the `@type ?? type` field, lowercased
(arrays map each member through `String(v).toLowerCase()` and join). -/
def getNodeType (a b : Option JNode) : String :=
  match coalesce a b with
  | some (jarr l) => String.intercalate "," (l.map fun v => jsLower (jsString v))
  | some (jstr s) => jsLower s
  | _ => ""

/-- `isStepType` from steps.ts. -/
def isStepType (t : String) : Bool :=
  strIncludes t "howtostep" || strIncludes t "howtodirection" || strIncludes t "listitem"

/-- `isSectionType` from steps.ts. -/
def isSectionType (t : String) : Bool :=
  strIncludes t "howtosection"

/-- JS truthiness of an embedded JSON value. -/
def truthyNode : JNode → Bool
  | jnull => false
  | jstr s => !s.data.isEmpty
  | jnum n => n != 0
  | jarr _ => true
  | jobj _ _ _ _ _ _ => true

/-- JS truthiness of a possibly-absent field. -/
def truthyOpt : Option JNode → Bool
  | some v => truthyNode v
  | none => false

/-- `typeof v === "string"` projection. -/
def strOrNone : Option JNode → Option String
  | some (jstr s) => some s
  | _ => none

/-- The `text` field of a nested `item` object (`node.item && typeof
node.item === "object"`; only objects carry the field). -/
def itemTextField : Option JNode → Option JNode
  | some (jobj _ _ _ t _ _) => t
  | _ => none

/-- The `name` field of a nested `item` object. -/
def itemNameField : Option JNode → Option JNode
  | some (jobj _ _ n _ _ _) => n
  | _ => none

/-- Trimmed non-empty string content of a field, with `item` fallback
(`rawText || undefined` collapses whitespace-only values to absent). -/
def pickTrimmed (own inner : Option JNode) : Option String :=
  let raw := match strOrNone own with
    | some s => some (jsTrim s)
    | none => (strOrNone inner).map jsTrim
  match raw with
  | some s => if s.data.isEmpty then none else some s
  | none => none

/-- `extractTextFromNode` from steps.ts, over the `name`, `text` and `item`
fields of a node. -/
def extractTextFromNode (nameF textF itemF : Option JNode) : Option String :=
  let text := pickTrimmed textF (itemTextField itemF)
  let name := pickTrimmed nameF (itemNameField itemF)
  match name, text with
  | some n, some t => some ("**" ++ n ++ ":** " ++ t)
  | _, _ => text.orElse fun _ => name

/-- `collectSteps` from steps.ts: the recursive `visit`, returning the
pushed raw steps in order. -/
def collectSteps : JNode → List String
  | jnull => []
  | jnum _ => []
  | jstr s => if (jsTrim s).data.isEmpty then [] else [jsTrim s]
  | jarr l => l.attach.flatMap fun x => collectSteps x.1
  | jobj aT tF nF tX iF lF =>
    let type := getNodeType aT tF
    let children :=
      (match lF with
        | some v => if truthyNode v then collectSteps v else []
        | none => []) ++
      (match iF with
        | some v => if truthyNode v then collectSteps v else []
        | none => [])
    if isSectionType type then
      (match nF with
        | some (jstr s) =>
          if (jsTrim s).data.isEmpty then [] else ["# " ++ jsTrim s]
        | _ => []) ++ children
    else
      (match extractTextFromNode nF tX iF with
        | some t =>
          if isStepType type || (!truthyOpt lF && !truthyOpt iF) then [t] else []
        | none => []) ++ children
termination_by n => sizeOf n
decreasing_by
  · have := List.sizeOf_lt_of_mem x.2
    simp at this ⊢
    omega
  · simp
    omega
  · simp
    omega

/-- Measurement systems of the Recipe DTO. -/
inductive MeasurementSystem where
  | metric : MeasurementSystem
  | us : MeasurementSystem
  | mixed : MeasurementSystem
  deriving DecidableEq

/-- A normalized step (`ParsedStep` in steps.ts). -/
structure ParsedStep where
  step : String
  systemUsed : Option MeasurementSystem
  order : Nat
  deriving DecidableEq

/-- `parseSteps` from steps.ts: collect, deduplicate, then number from 1. -/
def parseSteps (recipeInstructions : JNode) (systemUsed : Option MeasurementSystem) :
    List ParsedStep :=
  (deduplicateSteps (collectSteps recipeInstructions)).mapIdx fun i text =>
    ⟨text, systemUsed, i + 1⟩

theorem attach_flatMap {α β : Type} (l : List α) (f : α → List β) :
    (l.attach.flatMap fun x => f x.1) = l.flatMap f := by
  induction l with
  | nil => rfl
  | cons a t ih => simp_all [List.attach_cons, List.flatMap_map]

theorem collectSteps_arr (l : List JNode) :
    collectSteps (jarr l) = l.flatMap collectSteps := by
  rw [collectSteps]
  exact attach_flatMap l collectSteps

theorem pickTrimmed_jstr (s : String) (inner : Option JNode) :
    pickTrimmed (some (jstr s)) inner =
      if (jsTrim s).data.isEmpty then none else some (jsTrim s) := rfl

theorem pickTrimmed_none : pickTrimmed none none = none := rfl

theorem collectSteps_howToStep (Y : String) (hY : jsTrim Y = Y)
    (hY0 : Y.data.isEmpty = false) :
    collectSteps (jobj (some (jstr "HowToStep")) none none (some (jstr Y))
      none none) = [Y] := by
  rw [collectSteps]
  simp only [show getNodeType (some (jstr "HowToStep")) none = "howtostep" from rfl,
    show isSectionType "howtostep" = false from rfl, Bool.false_eq_true, if_false,
    show isStepType "howtostep" = true from rfl, Bool.true_or, if_true]
  all_goals try exact fun s h => nomatch h
  have htext : extractTextFromNode none (some (jstr Y)) none = some Y := by
    simp only [extractTextFromNode,
      show itemTextField none = none from rfl,
      show itemNameField none = none from rfl,
      pickTrimmed_jstr, pickTrimmed_none, hY, hY0, Bool.false_eq_true, if_false]
    rfl
  simp [htext]

/-- C5: on a `HowToSection` whose (already-trimmed, non-empty) name is `X`
with a single `HowToStep` child whose text is `Y`, `collectSteps` returns
exactly `["# X", Y]`: the heading precedes the section's step. -/
theorem claimC5_prop (X Y : String) (hX : jsTrim X = X)
    (hX0 : X.data.isEmpty = false) (hY : jsTrim Y = Y)
    (hY0 : Y.data.isEmpty = false) :
    collectSteps (jobj (some (jstr "HowToSection")) none (some (jstr X)) none none
      (some (jarr [jobj (some (jstr "HowToStep")) none none (some (jstr Y)) none none])))
    = ["# " ++ X, Y] := by
  rw [collectSteps]
  simp only [show getNodeType (some (jstr "HowToSection")) none = "howtosection" from rfl,
    show isSectionType "howtosection" = true from rfl, if_true]
  simp only [show truthyNode (jarr [jobj (some (jstr "HowToStep")) none none
    (some (jstr Y)) none none]) = true from rfl, if_true]
  rw [collectSteps_arr]
  simp only [List.flatMap_cons, List.flatMap_nil,
    collectSteps_howToStep Y hY hY0, hX, hX0, Bool.false_eq_true, if_false]
  simp

/-- C5 witness: the theorem instantiated on the section "Dough" with the
single step "Knead well". -/
theorem claimC5_witness :
    collectSteps (jobj (some (jstr "HowToSection")) none (some (jstr "Dough"))
      none none (some (jarr [jobj (some (jstr "HowToStep")) none none
        (some (jstr "Knead well")) none none])))
    = ["# Dough", "Knead well"] :=
  claimC5_prop "Dough" "Knead well" (by decide) (by decide) (by decide) (by decide)

/-! ## Unit dictionary and ingredient lines
(src/lib/helpers.ts `parseIngredientWithDefaults`)

An ingredient line is embedded at token granularity: a list of numeric and
word tokens.  The decimal-comma normalization (`(\d),(\d)` → `$1.$2`) is
reflected by `num` carrying the numeric value directly, and the recovery
regex `\b(\d+(?:[.,]\d+)?)\s*(unit)\b` — a number, optional whitespace and
a unit spelling between word boundaries — corresponds to a `num` token
immediately followed by a `word` token whose text is a recognized unit
spelling. -/

inductive Tok where
  | num : ℚ → Tok
  | word : String → Tok
  deriving DecidableEq

open Tok

/-- An entry of the unit dictionary (`UnitsMap` values in
src/server/db/zodSchemas/server-config): optional short form, plural and
alternate spellings for a canonical unit ID. -/
structure UnitDef where
  short : Option String
  plural : Option String
  alternates : List String
  deriving DecidableEq

/-- The unit dictionary: canonical ID to definition. -/
abbrev UnitsMap := List (String × UnitDef)

/-- Every spelling of every dictionary entry: canonical ID, short form,
plural and alternates (the `allUnits` set of the source). -/
def unitSpellings (units : UnitsMap) : List String :=
  units.flatMap fun p =>
    p.1 :: (p.2.short.toList ++ p.2.plural.toList ++ p.2.alternates)

/-- Does the word match some dictionary spelling (the alternation regex is
case-insensitive)? -/
def isUnitSpelling (units : UnitsMap) (w : String) : Bool :=
  (unitSpellings units).any fun u => jsLower u == jsLower w

/-- Canonical unit ID for a matched spelling: the key of the first
dictionary entry having the word among its spellings. -/
def canonicalUnitId (units : UnitsMap) (w : String) : Option String :=
  (units.find? fun p =>
    (jsLower p.1 == jsLower w) ||
    (p.2.short.any fun u => jsLower u == jsLower w) ||
    (p.2.plural.any fun u => jsLower u == jsLower w) ||
    (p.2.alternates.any fun u => jsLower u == jsLower w)).map (·.1)

/-- One parsed entry of the `parse-ingredient` result array. -/
structure ParsedEntry where
  quantity : Option ℚ
  unitOfMeasureID : Option String
  description : List Tok
  deriving DecidableEq

/-- Modelled from the spec: the baseline parse is the external
`parse-ingredient` npm library called with the dictionary as
`additionalUOMs`.  Spec §4.1 describes it as a position-sensitive parser
producing `{quantity, unit, description}` — it reads a leading quantity
token, an optional following unit token recognized through the supplied
dictionary, and leaves the remainder as the description ("a
position-sensitive parser misses ... on the first pass"). -/
def baselineParse (units : UnitsMap) : List Tok → ParsedEntry
  | num q :: word w :: rest =>
    if isUnitSpelling units w then ⟨some q, canonicalUnitId units w, rest⟩
    else ⟨some q, none, word w :: rest⟩
  | num q :: rest => ⟨some q, none, rest⟩
  | toks => ⟨none, none, toks⟩

/-- JS truthiness of `parsed[0]?.quantity` (`0` is falsy). -/
def quantityTruthy (e : ParsedEntry) : Bool :=
  match e.quantity with
  | some q => q != 0
  | none => false

/-- The first `<number><optional-space><unit>` occurrence in the line
(the recovery regex), returning its value, the matched unit word, and the
line with the matched pair removed (`replace(match[0], "")`). -/
def findNumUnit (units : UnitsMap) : List Tok → Option (ℚ × String × List Tok)
  | [] => none
  | num q :: word w :: rest =>
    if isUnitSpelling units w then some (q, w, rest)
    else (findNumUnit units (word w :: rest)).map fun r =>
      (r.1, r.2.1, num q :: r.2.2)
  | t :: rest => (findNumUnit units rest).map fun r => (r.1, r.2.1, t :: r.2.2)

/-- `parseIngredientWithDefaults` on a single line: baseline parse first;
when it finds no (truthy) quantity, search for a number+unit token anywhere,
reorder the line so quantity and unit lead, re-run the baseline parser, and
keep the re-parse only when it yields a truthy quantity. -/
def parseIngredientLine (units : UnitsMap) (toks : List Tok) : ParsedEntry :=
  let parsed := baselineParse units toks
  if quantityTruthy parsed then parsed
  else
    match findNumUnit units toks with
    | none => parsed
    | some (q, w, rest) =>
      let smartParsed := baselineParse units (num q :: word w :: rest)
      if quantityTruthy smartParsed then smartParsed else parsed

/-- `parseIngredientWithDefaults` over the lines of an input (falsy/empty
lines are skipped, per-line results are merged in order). -/
def parseIngredientWithDefaults (units : UnitsMap) (lines : List (List Tok)) :
    List ParsedEntry :=
  (lines.filter fun l => !l.isEmpty).map (parseIngredientLine units)

/-- A small concrete dictionary (canonical ID `cup`, short `c`,
plural `cups`). -/
def demoUnits : UnitsMap := [("cup", ⟨some "c", some "cups", []⟩)]

/-- Is the token a word spelling a recognized unit? -/
def isUnitTok (units : UnitsMap) : Tok → Bool
  | word w => isUnitSpelling units w
  | num _ => false

theorem findNumUnit_spelling {units : UnitsMap} {toks : List Tok} {q : ℚ}
    {w : String} {rest : List Tok}
    (h : findNumUnit units toks = some (q, w, rest)) :
    isUnitSpelling units w = true := by
  induction toks generalizing q rest with
  | nil => simp [findNumUnit] at h
  | cons t ts ih =>
    rcases t with q0 | w0
    · rcases ts with _ | ⟨t2, rest0⟩
      · rw [show findNumUnit units [num q0] =
          (findNumUnit units []).map fun r => (r.1, r.2.1, num q0 :: r.2.2)
          from rfl] at h
        simp [findNumUnit] at h
      · rcases t2 with q1 | w1
        · rw [show findNumUnit units (num q0 :: num q1 :: rest0) =
            (findNumUnit units (num q1 :: rest0)).map fun r =>
              (r.1, r.2.1, num q0 :: r.2.2) from rfl] at h
          rcases hf : findNumUnit units (num q1 :: rest0) with _ | ⟨q2, w2, rest2⟩
          · rw [hf] at h; simp at h
          · rw [hf] at h
            simp only [Option.map_some', Option.some.injEq, Prod.mk.injEq] at h
            obtain ⟨-, h2, -⟩ := h
            subst h2
            exact ih hf
        · by_cases hu : isUnitSpelling units w1 = true
          · rw [show findNumUnit units (num q0 :: word w1 :: rest0) =
              some (q0, w1, rest0) by rw [findNumUnit, if_pos hu]] at h
            simp only [Option.some.injEq, Prod.mk.injEq] at h
            obtain ⟨-, h2, -⟩ := h
            exact h2 ▸ hu
          · rw [show findNumUnit units (num q0 :: word w1 :: rest0) =
              (findNumUnit units (word w1 :: rest0)).map fun r =>
                (r.1, r.2.1, num q0 :: r.2.2) by
              rw [findNumUnit, if_neg hu]] at h
            rcases hf : findNumUnit units (word w1 :: rest0) with _ | ⟨q2, w2, rest2⟩
            · rw [hf] at h; simp at h
            · rw [hf] at h
              simp only [Option.map_some', Option.some.injEq, Prod.mk.injEq] at h
              obtain ⟨-, h2, -⟩ := h
              subst h2
              exact ih hf
    · rw [show findNumUnit units (word w0 :: ts) =
        (findNumUnit units ts).map fun r => (r.1, r.2.1, word w0 :: r.2.2)
        from rfl] at h
      rcases hf : findNumUnit units ts with _ | ⟨q1, w1, rest1⟩
      · rw [hf] at h; simp at h
      · rw [hf] at h
        simp only [Option.map_some', Option.some.injEq, Prod.mk.injEq] at h
        obtain ⟨-, h2, -⟩ := h
        subst h2
        exact ih hf

/-- C1 (amended): the units-in-the-middle recovery fires exactly on a
number immediately followed by a recognized unit spelling.  Whenever the
baseline parse finds no (truthy) quantity and the line contains such a
`<number><unit-token>` pair with a nonzero number, the parser returns the
first such pair's value as the quantity, the pair's canonical unit ID, and
the rest of the line as description.  (A recognized unit token *without* an
adjacent numeric token is not recovered; see the counterexample.) -/
theorem claimC1_prop (units : UnitsMap) (toks : List Tok) (q : ℚ)
    (w : String) (rest : List Tok)
    (hbase : quantityTruthy (baselineParse units toks) = false)
    (hfind : findNumUnit units toks = some (q, w, rest))
    (hq : q ≠ 0) :
    parseIngredientLine units toks = ⟨some q, canonicalUnitId units w, rest⟩ := by
  have hu : isUnitSpelling units w = true := findNumUnit_spelling hfind
  simp only [parseIngredientLine, hbase, Bool.false_eq_true, if_false, hfind]
  rw [show baselineParse units (num q :: word w :: rest) =
    ⟨some q, canonicalUnitId units w, rest⟩ by
    rw [baselineParse, if_pos hu]]
  rw [show quantityTruthy ⟨some q, canonicalUnitId units w, rest⟩ = (q != 0)
    from rfl]
  simp [hq]

/-- C1 counterexample: the line `add 2 eggs and cups` contains the
recognized unit token `cups` and the numeric token `2`, yet
`parseIngredientWithDefaults` returns a null quantity for it, because the
recovery regex requires the number to be adjacent to the unit token. -/
theorem claimC1_counterexample :
    (∃ t ∈ [word "add", num 2, word "eggs", word "and", word "cups"],
      isUnitTok demoUnits t = true)
    ∧ (parseIngredientLine demoUnits
        [word "add", num 2, word "eggs", word "and", word "cups"]).quantity = none
    ∧ parseIngredientWithDefaults demoUnits
        [[word "add", num 2, word "eggs", word "and", word "cups"]]
      = [⟨none, none, [word "add", num 2, word "eggs", word "and", word "cups"]⟩] := by
  refine ⟨⟨word "cups", by simp, by decide⟩, by decide, by decide⟩

/-- C1 witness: the spec's own example `Add flour, 2 cups` (tokenized) is
recovered to quantity `2` with canonical unit `cup`. -/
theorem claimC1_witness :
    parseIngredientLine demoUnits [word "add", word "flour", num 2, word "cups"]
      = ⟨some 2, some "cup", [word "add", word "flour"]⟩ := by
  have h := claimC1_prop demoUnits
    [word "add", word "flour", num 2, word "cups"] 2 "cups"
    [word "add", word "flour"] (by decide) (by decide) (by decide)
  rw [h]
  decide

/-! ## Recipe DTO assembly and order fields

JSON-LD path: `parseIngredients` (src/server/parser/parsers/ingredients.ts)
assigns `order: i` (0-based) and `parseSteps` assigns `order: i + 1`
(1-based).  Archive path: `buildRecipeDTO`
(src/server/importers/parser-helpers.ts) assigns `order: i` to both
ingredients and steps.  `inferSystemUsedFromParsed`
(src/lib/determine-recipe-system.ts) is not among the given sources and no
order field depends on its value, so it is taken as an arbitrary function
parameter. -/

/-- A row of `recipeIngredients` in the DTO. -/
structure RecipeIngredientRow where
  ingredientName : List Tok
  amount : Option Rat
  unit : Option String
  systemUsed : Option MeasurementSystem
  order : Nat
  deriving DecidableEq

/-- A row of `steps` in the DTO. -/
structure StepRow where
  step : String
  order : Nat
  systemUsed : Option MeasurementSystem
  deriving DecidableEq

/-- The assembled `FullRecipeInsertDTO` (fields the importers populate). -/
structure FullRecipeInsertDTO where
  name : String
  url : Option String
  description : Option String
  servings : Option Nat
  systemUsed : Option MeasurementSystem
  prepMinutes : Option Nat
  cookMinutes : Option Nat
  totalMinutes : Option Nat
  recipeIngredients : List RecipeIngredientRow
  steps : List StepRow
  tags : List String
  deriving DecidableEq

/-- `parseIngredients` from src/server/parser/parsers/ingredients.ts, over
already-tokenized raw ingredient lines (the string extraction
`recipeIngredient ?? ingredients` plus HTML decode yields these lines):
parse each line, infer the system once, and assign dense 0-based order. -/
def parseIngredientsNorm (units : UnitsMap)
    (inferSystem : List ParsedEntry -> Option MeasurementSystem)
    (rawIngredients : List (List Tok)) :
    List RecipeIngredientRow × Option MeasurementSystem :=
  let parsed := parseIngredientWithDefaults units rawIngredients
  let systemUsed := inferSystem parsed
  (parsed.mapIdx fun i ing =>
    ⟨ing.description, ing.quantity, ing.unitOfMeasureID, systemUsed, i⟩,
   systemUsed)

/-- `String.split(/\r?\n/)`: split at `\n`, consuming one `\r` right
before it; a lone `\r` is not a separator. -/
def splitLines : List Char -> List (List Char)
  | [] => [[]]
  | '\r' :: '\n' :: rest => [] :: splitLines rest
  | '\n' :: rest => [] :: splitLines rest
  | c :: rest =>
    match splitLines rest with
    | l :: ls => (c :: l) :: ls
    | [] => [[c]]

/-- `splitNonEmptyLines` from src/server/importers/parser-helpers.ts. -/
def splitNonEmptyLines (s : Option String) : List String :=
  match s with
  | none => []
  | some s =>
    ((splitLines s.data).map fun l => jsTrim ⟨l⟩).filter fun x => !x.data.isEmpty

/-- `x || undefined` for an optional string field. -/
def nonEmptyStr (o : Option String) : Option String :=
  match o with
  | some s => if s.data.isEmpty then none else some s
  | none => none

/-- The `RecipeParseInput` of src/server/importers/parser-helpers.ts.  The
free-text `ingredientsText` appears as its non-empty lines, tokenized
(cf. `Tok`); `instructionsText` stays raw text. -/
structure RecipeParseInput where
  name : String
  url : Option String
  description : Option String
  servings : Option Nat
  prepMinutes : Option Nat
  cookMinutes : Option Nat
  totalMinutes : Option Nat
  ingredientLines : List (List Tok)
  instructionsText : Option String
  categories : List String

/-- `buildRecipeDTO` from src/server/importers/parser-helpers.ts (the final
`FullRecipeInsertSchema.safeParse` is structural validation which passes the
assembled data through unchanged and is not modeled). -/
def buildRecipeDTO (units : UnitsMap)
    (inferSystem : List ParsedEntry -> Option MeasurementSystem)
    (input : RecipeParseInput) : Except String FullRecipeInsertDTO :=
  if (jsTrim input.name).data.isEmpty then Except.error "Missing recipe name"
  else
    let ingredientArray := parseIngredientWithDefaults units input.ingredientLines
    let systemUsed := inferSystem ingredientArray
    let stepLines := splitNonEmptyLines input.instructionsText
    let tags := (input.categories.filter fun c => !(jsTrim c).data.isEmpty).map jsTrim
    Except.ok
      { name := jsTrim input.name
        url := nonEmptyStr input.url
        description := nonEmptyStr input.description
        servings := input.servings
        systemUsed := systemUsed
        prepMinutes := input.prepMinutes
        cookMinutes := input.cookMinutes
        totalMinutes := input.totalMinutes
        recipeIngredients := ingredientArray.mapIdx fun i line =>
          ⟨line.description,
           match line.quantity with | some q => some q | none => none,
           line.unitOfMeasureID, systemUsed, i⟩
        steps := stepLines.mapIdx fun i s => ⟨s, i, systemUsed⟩
        tags := tags }

theorem mapIdx_proj {α β : Type} (l : List α) (f : Nat -> α -> β) (pr : β -> Nat)
    (s : Nat) (h : ∀ i a, pr (f i a) = s + i) :
    (l.mapIdx f).map pr = List.range' s l.length := by
  induction l generalizing f s with
  | nil => rfl
  | cons a t ih =>
    rw [List.mapIdx_cons, List.map_cons, h 0 a, List.length_cons, List.range']
    refine congrArg₂ _ rfl ?_
    refine ih (fun i => f (i + 1)) (s + 1) ?_
    intro i a
    rw [h (i + 1) a]
    omega

theorem mapIdx_reassign {α β : Type} (l : List α) (f : Nat -> α -> β)
    (g : Nat -> β -> β) (h : ∀ i a, g i (f i a) = f i a) :
    (l.mapIdx f).mapIdx g = l.mapIdx f := by
  induction l generalizing f g with
  | nil => rfl
  | cons a t ih =>
    rw [List.mapIdx_cons, List.mapIdx_cons, h 0 a]
    exact congrArg _ (ih (fun i => f (i + 1)) (fun i => g (i + 1))
      fun i a => h (i + 1) a)

/-- The Mela example input of the spec (name `Tea`, two tokenized
ingredient lines, two instruction lines). -/
def teaInput : RecipeParseInput :=
  ⟨"Tea", none, none, none, none, none, none,
   [[num 1, word "cup", word "water"], [num 2, word "tsp", word "tea", word "leaves"]],
   some "Boil water\nSteep leaves", []⟩

/-- C2 (amended): ingredient `order` fields are the dense 0-based sequence
`0..n-1` in list position on both the JSON-LD path (`parseIngredients`) and
the archive path (`buildRecipeDTO`); step `order` fields are the dense
1-based sequence `1..m` on the JSON-LD path (`parseSteps`), but the dense
0-based sequence `0..m-1` on the archive path, whose `buildRecipeDTO`
assigns `order: i`.  In every case `order` is determined by list position,
so re-applying the positional numbering to a produced DTO is the identity
(round-trip stable). -/
theorem claimC2_prop :
    (∀ (instr : JNode) (sys : Option MeasurementSystem),
      (parseSteps instr sys).map (fun r => r.order) =
        List.range' 1 (parseSteps instr sys).length
      ∧ (parseSteps instr sys).mapIdx (fun i r => ⟨r.step, r.systemUsed, i + 1⟩) =
          parseSteps instr sys)
    ∧ (∀ (units : UnitsMap) (inferSystem : List ParsedEntry -> Option MeasurementSystem)
        (raw : List (List Tok)),
      (parseIngredientsNorm units inferSystem raw).1.map (fun r => r.order) =
        List.range' 0 (parseIngredientsNorm units inferSystem raw).1.length
      ∧ (parseIngredientsNorm units inferSystem raw).1.mapIdx
          (fun i r => ⟨r.ingredientName, r.amount, r.unit, r.systemUsed, i⟩) =
          (parseIngredientsNorm units inferSystem raw).1)
    ∧ (∀ (units : UnitsMap) (inferSystem : List ParsedEntry -> Option MeasurementSystem)
        (input : RecipeParseInput) (dto : FullRecipeInsertDTO),
        buildRecipeDTO units inferSystem input = Except.ok dto →
        dto.recipeIngredients.map (fun r => r.order) =
          List.range' 0 dto.recipeIngredients.length
        ∧ dto.steps.map (fun r => r.order) = List.range' 0 dto.steps.length
        ∧ dto.steps.mapIdx (fun i r => ⟨r.step, i, r.systemUsed⟩) = dto.steps) := by
  refine ⟨?_, ?_, ?_⟩
  · intro instr sys
    constructor
    · rw [parseSteps, List.length_mapIdx]
      exact mapIdx_proj _ _ _ 1 fun i a => by show i + 1 = 1 + i; omega
    · rw [parseSteps]
      exact mapIdx_reassign _ _ _ fun i a => rfl
  · intro units inferSystem raw
    constructor
    · rw [parseIngredientsNorm]
      simp only [List.length_mapIdx]
      exact mapIdx_proj _ _ _ 0 fun i a => by show i = 0 + i; omega
    · rw [parseIngredientsNorm]
      exact mapIdx_reassign _ _ _ fun i a => rfl
  · intro units inferSystem input dto h
    rw [buildRecipeDTO] at h
    by_cases hname : (jsTrim input.name).data.isEmpty
    · rw [if_pos hname] at h
      cases h
    · rw [if_neg hname] at h
      injection h with h
      subst h
      refine ⟨?_, ?_, ?_⟩
      · simp only [List.length_mapIdx]
        exact mapIdx_proj _ _ _ 0 fun i a => by show i = 0 + i; omega
      · simp only [List.length_mapIdx]
        exact mapIdx_proj _ _ _ 0 fun i a => by show i = 0 + i; omega
      · exact mapIdx_reassign _ _ _ fun i a => rfl

/-- C2 counterexample: on the spec's own Mela example (`Tea`), the archive
path `buildRecipeDTO` numbers the two steps `0, 1` — a dense zero-based
sequence — not the claimed one-based `1, 2`. -/
theorem claimC2_counterexample :
    (match buildRecipeDTO demoUnits (fun _ => none) teaInput with
      | Except.ok d => d.steps.map (fun r => r.order)
      | Except.error _ => []) = [0, 1]
    ∧ ([0, 1] : List Nat) ≠ [1, 2] := by
  constructor <;> decide

/-- C2 witness: the amended theorem applied to the concrete Mela `Tea`
input: the archive DTO's step orders are exactly `range' 0 m`. -/
theorem claimC2_witness :
    (buildRecipeDTO demoUnits (fun _ => none) teaInput).map
        (fun d => d.steps.map (fun r => r.order)) =
      (buildRecipeDTO demoUnits (fun _ => none) teaInput).map
        (fun d => List.range' 0 d.steps.length) := by
  rcases hb : buildRecipeDTO demoUnits (fun _ => none) teaInput with e | dto
  · rfl
  · simp only [Except.map]
    exact congrArg Except.ok
      (claimC2_prop.2.2 demoUnits (fun _ => none) teaInput dto hb).2.1

/-! ## URL-import orchestrator (src/server/parser/index.ts)

The orchestrator's collaborators (Playwright fetch, the JSON-LD/microdata
extractors, the AI adapter, the video processor, configuration) perform I/O;
their outcomes for the one request under consideration are collected in an
environment record, and `parseRecipeFromUrl` is embedded as a pure function
of that environment mirroring the source's control flow. -/

/-- Outcomes of the orchestrator's external collaborators for one request. -/
structure OrchestratorEnv where
  /-- `isVideoUrl url` -/
  isVideo : Bool
  /-- `isVideoParsingEnabled()` -/
  videoParsingEnabled : Bool
  /-- `processVideoRecipe` outcome (throws or returns a recipe) -/
  processVideo : Except String FullRecipeInsertDTO
  /-- `fetchViaPlaywright` result (`none` for a null/failed fetch) -/
  html : Option String
  /-- configured `schemaIndicators` -/
  schemaIndicators : List String
  /-- configured `contentIndicators` -/
  contentIndicators : List String
  /-- `isAIEnabled()` -/
  aiEnabled : Bool
  /-- `shouldAlwaysUseAI()` -/
  alwaysUseAI : Bool
  /-- `extractRecipeNodesFromJsonLd(html).length > 0` -/
  jsonLdNodesPresent : Bool
  /-- AI extraction outcome on the JSON-LD input (`none`: failed) -/
  aiFromJsonLd : Option FullRecipeInsertDTO
  /-- AI extraction outcome on the full HTML input (`none`: failed) -/
  aiFromHtml : Option FullRecipeInsertDTO
  /-- `tryExtractRecipeFromJsonLd` result -/
  jsonLd : Option FullRecipeInsertDTO
  /-- `tryExtractRecipeFromMicrodata` result -/
  micro : Option FullRecipeInsertDTO

/-- `hasValidRecipeData` from src/server/parser/index.ts: non-null with at
least one ingredient and at least one step (the embedded lists are always
arrays, so the `Array.isArray` guards always hold). -/
def hasValidRecipeData : Option FullRecipeInsertDTO → Bool
  | some r => !r.recipeIngredients.isEmpty && !r.steps.isEmpty
  | none => false

/-- `tryExtractWithAI`: when AI is disabled, throws in require mode and
degrades to null otherwise; when enabled, a failed extraction is null. -/
def tryExtractWithAI (env : OrchestratorEnv) (outcome : Option FullRecipeInsertDTO)
    (requireAI : Bool) : Except String (Option FullRecipeInsertDTO) :=
  if !env.aiEnabled then
    if requireAI then Except.error "AI-only import requested but AI is not enabled."
    else Except.ok none
  else Except.ok outcome

/-- `extractWithAIPreference`: try the extracted JSON-LD fragment first when
present, then fall back to the full HTML. -/
def extractWithAIPreference (env : OrchestratorEnv) (requireAI : Bool) :
    Except String (Option FullRecipeInsertDTO) :=
  if env.jsonLdNodesPresent then
    match tryExtractWithAI env env.aiFromJsonLd requireAI with
    | Except.error e => Except.error e
    | Except.ok (some r) => Except.ok (some r)
    | Except.ok none => tryExtractWithAI env env.aiFromHtml requireAI
  else tryExtractWithAI env env.aiFromHtml requireAI

/-- `tryStructuredParsers`: JSON-LD first, then microdata; a candidate is
accepted only if `hasValidRecipeData` holds. -/
def tryStructuredParsers (env : OrchestratorEnv) : Option FullRecipeInsertDTO :=
  if hasValidRecipeData env.jsonLd then env.jsonLd
  else if hasValidRecipeData env.micro then env.micro
  else none

/-- `isPageLikelyRecipe` from src/server/parser/index.ts. -/
def isPageLikelyRecipe (schemaIndicators contentIndicators : List String)
    (html : String) : Bool :=
  let lowered := jsLower html
  let hasSchema := schemaIndicators.any fun i => strIncludes lowered (jsLower i)
  let contentHits :=
    (contentIndicators.filter fun i => strIncludes lowered (jsLower i)).length
  hasSchema || decide (2 ≤ contentHits)

/-- The `ParseRecipeResult`: recipe plus the `usedAI` provenance flag. -/
abbrev ParseRecipeResult := FullRecipeInsertDTO × Bool

/-- `parseRecipeFromUrl` from src/server/parser/index.ts over the
environment of collaborator outcomes (`forceAI` is the optional caller
override: `forceAI ?? shouldAlwaysUseAI()`). -/
def parseRecipeFromUrl (env : OrchestratorEnv) (forceAI : Option Bool) :
    Except String ParseRecipeResult :=
  if env.isVideo then
    if !env.videoParsingEnabled then
      Except.error "Video recipe parsing is not enabled."
    else
      match env.processVideo with
      | Except.ok r => Except.ok (r, true)
      | Except.error e => Except.error e
  else
    match env.html with
    | none => Except.error "Cannot fetch recipe page."
    | some html =>
      if html.data.isEmpty then Except.error "Cannot fetch recipe page."
      else if !isPageLikelyRecipe env.schemaIndicators env.contentIndicators html then
        Except.error "Page does not appear to contain a recipe."
      else
        let useAIOnly := forceAI.getD env.alwaysUseAI
        if useAIOnly then
          match extractWithAIPreference env true with
          | Except.error e => Except.error e
          | Except.ok none => Except.error "AI extraction failed"
          | Except.ok (some r) => Except.ok (r, true)
        else
          match tryStructuredParsers env with
          | some r => Except.ok (r, false)
          | none =>
            match extractWithAIPreference env false with
            | Except.error e => Except.error e
            | Except.ok (some r) => Except.ok (r, true)
            | Except.ok none => Except.error "Cannot parse recipe."

/-- C4: in non-AI-only mode (non-video, page fetched and heuristically a
recipe), a structured DTO is returned with `usedAI = false` iff the JSON-LD
or the microdata candidate has at least one ingredient and at least one
step; the returned DTO is that candidate and is non-empty on both counts;
and when both structured candidates are invalid, no result with
`usedAI = false` is ever produced — only the AI fallback (`usedAI = true`)
or an error. -/
theorem claimC4_prop (env : OrchestratorEnv) (forceAI : Option Bool)
    (h : String) (hv : env.isVideo = false) (hh : env.html = some h)
    (hne : h.data.isEmpty = false)
    (hlikely : isPageLikelyRecipe env.schemaIndicators env.contentIndicators h = true)
    (hmode : forceAI.getD env.alwaysUseAI = false) :
    ((∃ r, parseRecipeFromUrl env forceAI = Except.ok (r, false)) ↔
      (hasValidRecipeData env.jsonLd || hasValidRecipeData env.micro) = true)
    ∧ (∀ r, parseRecipeFromUrl env forceAI = Except.ok (r, false) →
        r.recipeIngredients ≠ [] ∧ r.steps ≠ [] ∧
        (env.jsonLd = some r ∨ env.micro = some r))
    ∧ (∀ r, env.jsonLd = some r → hasValidRecipeData env.jsonLd = true →
        parseRecipeFromUrl env forceAI = Except.ok (r, false))
    ∧ (∀ r, hasValidRecipeData env.jsonLd = false → env.micro = some r →
        hasValidRecipeData env.micro = true →
        parseRecipeFromUrl env forceAI = Except.ok (r, false))
    ∧ (hasValidRecipeData env.jsonLd = false → hasValidRecipeData env.micro = false →
        ∀ r b, parseRecipeFromUrl env forceAI = Except.ok (r, b) → b = true) := by
  have hstep : parseRecipeFromUrl env forceAI =
      (match tryStructuredParsers env with
      | some r => Except.ok (r, false)
      | none =>
        match extractWithAIPreference env false with
        | Except.error e => Except.error e
        | Except.ok (some r) => Except.ok (r, true)
        | Except.ok none => Except.error "Cannot parse recipe.") := by
    rw [parseRecipeFromUrl, hv]
    simp only [Bool.false_eq_true, if_false, hh]
    rw [hne]
    simp only [Bool.false_eq_true, if_false, hlikely, Bool.not_true, hmode]
  refine ⟨?_, ?_, ?_, ?_, ?_⟩
  · constructor
    · rintro ⟨r, hr⟩
      rw [hstep] at hr
      rcases hs : tryStructuredParsers env with _ | s
      · rw [hs] at hr
        rcases ha : extractWithAIPreference env false with e | o
        · rw [ha] at hr; cases hr
        · rcases o with _ | r2 <;> rw [ha] at hr <;> cases hr
      · rw [tryStructuredParsers] at hs
        by_cases h1 : hasValidRecipeData env.jsonLd = true
        · simp [h1]
        · rw [if_neg h1] at hs
          by_cases h2 : hasValidRecipeData env.micro = true
          · simp [h2]
          · rw [if_neg h2] at hs; cases hs
    · intro hvalid
      rw [hstep]
      rw [tryStructuredParsers]
      by_cases h1 : hasValidRecipeData env.jsonLd = true
      · rcases henv : env.jsonLd with _ | r
        · rw [henv] at h1; cases h1
        · rw [henv] at h1
          rw [if_pos h1]
          exact ⟨r, rfl⟩
      · simp only [h1, Bool.false_or] at hvalid
        rcases henv : env.micro with _ | r
        · rw [henv] at hvalid; cases hvalid
        · rw [henv] at hvalid
          rw [if_neg h1, if_pos hvalid]
          exact ⟨r, rfl⟩
  · intro r hr
    rw [hstep] at hr
    rcases hs : tryStructuredParsers env with _ | s
    · rw [hs] at hr
      rcases ha : extractWithAIPreference env false with e | o
      · rw [ha] at hr; cases hr
      · rcases o with _ | r2 <;> rw [ha] at hr <;> cases hr
    · rw [hs] at hr
      injection hr with hr
      injection hr with hr1 hr2
      subst hr1
      rw [tryStructuredParsers] at hs
      by_cases h1 : hasValidRecipeData env.jsonLd = true
      · rw [if_pos h1] at hs
        rw [hs] at h1
        rw [hasValidRecipeData] at h1
        simp only [Bool.and_eq_true, Bool.not_eq_true', List.isEmpty_eq_false] at h1
        exact ⟨h1.1, h1.2, Or.inl hs⟩
      · rw [if_neg h1] at hs
        by_cases h2 : hasValidRecipeData env.micro = true
        · rw [if_pos h2] at hs
          rw [hs] at h2
          rw [hasValidRecipeData] at h2
          simp only [Bool.and_eq_true, Bool.not_eq_true', List.isEmpty_eq_false] at h2
          exact ⟨h2.1, h2.2, Or.inr hs⟩
        · rw [if_neg h2] at hs; cases hs
  · intro r hjl h1
    rw [hstep, tryStructuredParsers, if_pos h1, hjl]
  · intro r h1 hm h2
    rw [hstep, tryStructuredParsers, if_neg (by simp [h1]), if_pos h2, hm]
  · intro h1 h2 r b hr
    rw [hstep, tryStructuredParsers, if_neg (by simp [h1]),
      if_neg (by simp [h2])] at hr
    rcases ha : extractWithAIPreference env false with e | o
    · rw [ha] at hr; cases hr
    · rcases o with _ | r2
      · rw [ha] at hr; cases hr
      · rw [ha] at hr
        injection hr with hr
        injection hr with hr1 hr2
        exact hr2.symm

/-- A minimal valid DTO: one ingredient, one step. -/
def dtoA : FullRecipeInsertDTO :=
  ⟨"A", none, none, none, none, none, none, none,
   [⟨[], none, none, none, 0⟩], [⟨"Mix", 1, none⟩], []⟩

/-- A concrete orchestrator environment: not a video, page fetched, schema
marker present, AI disabled, valid JSON-LD candidate. -/
def envA : OrchestratorEnv :=
  ⟨false, false, Except.error "video disabled", some "page with application/ld+json marker",
   ["application/ld+json"], [], false, false, false, none, none, some dtoA, none⟩

/-- C4 witness: on the concrete environment the orchestrator returns the
JSON-LD candidate with `usedAI = false`. -/
theorem claimC4_witness :
    parseRecipeFromUrl envA none = Except.ok (dtoA, false) :=
  (claimC4_prop envA none "page with application/ld+json marker"
    (by decide) (by decide) (by decide) (by decide) (by decide)).2.2.1
    dtoA (by decide) (by decide)

/-! ## Paprika archive extraction (`extractPaprikaRecipes`)

A Paprika export is a zip whose `.paprikarecipe` entries are each
gzip-compressed JSON.  The zip container, `gunzip`, `JSON.parse` and the
Zod schema check are external libraries; an entry's content is embedded by
the stage at which that per-entry decoding pipeline succeeds or throws.
The repository's own logic — the case-insensitive name filter, the
per-entry try/catch that logs a warning and continues, the first-photo
extraction and the result assembly — is modeled faithfully. -/

/-- A photo of a Paprika recipe (`data` is its base64 payload). -/
structure PaprikaPhoto where
  data : Option String
  filename : Option String
  deriving DecidableEq

/-- A schema-valid Paprika recipe (the fields the extractor touches;
further schema fields do not influence extraction control flow). -/
structure PaprikaRecipe where
  name : String
  ingredients : Option String
  directions : Option String
  categories : List String
  photos : List PaprikaPhoto
  deriving DecidableEq

/-- Content of one zip entry, by the decoding stage that fails:
gunzip (`notGzip`), `JSON.parse` (`badJson`) or the Zod schema
(`badSchema`); `gzJson` decodes all the way to a valid recipe. -/
inductive EntryBlob where
  | gzJson : PaprikaRecipe → EntryBlob
  | notGzip : EntryBlob
  | badJson : EntryBlob
  | badSchema : EntryBlob
  deriving DecidableEq

/-- A zip entry: file name plus content. -/
structure ZipEntry where
  name : String
  blob : EntryBlob
  deriving DecidableEq

/-- `zip.file(/\.paprikarecipe$/i)`: case-insensitive suffix match. -/
def isPaprikaName (n : String) : Bool :=
  ".paprikarecipe".data.isSuffixOf (jsLower n).data

/-- The per-entry decode pipeline (gunzip, then `JSON.parse`, then the
schema); each stage throws on its failure. -/
def decodeEntry : EntryBlob → Except String PaprikaRecipe
  | EntryBlob.gzJson r => Except.ok r
  | EntryBlob.notGzip => Except.error "incorrect header check"
  | EntryBlob.badJson => Except.error "JSON parse error"
  | EntryBlob.badSchema => Except.error "schema validation error"

/-- One successful extraction result (`{recipe, image, fileName}`). -/
structure PaprikaExtract where
  recipe : PaprikaRecipe
  image : Option String
  fileName : String
  deriving DecidableEq

/-- One `log.warn` record for a skipped corrupted entry. -/
structure LogWarning where
  fileName : String
  message : String
  deriving DecidableEq

/-- First-photo extraction: `photos[0].data` when present and truthy
(`Buffer.from` on base64 text does not throw; the buffer is represented by
the payload string). -/
def firstPhotoImage (r : PaprikaRecipe) : Option String :=
  r.photos.head?.bind fun p => nonEmptyStr p.data

/-- `extractPaprikaRecipes`: filter `.paprikarecipe` entries, decode each
inside a try/catch — a corrupted entry is logged and skipped, the batch
continues — and return the successful results (with the warnings made
explicit instead of the logger side effect). -/
def extractPaprikaRecipes (zip : List ZipEntry) :
    List PaprikaExtract × List LogWarning :=
  (zip.filter fun e => isPaprikaName e.name).foldl
    (fun acc e =>
      match decodeEntry e.blob with
      | Except.ok recipe => (acc.1 ++ [⟨recipe, firstPhotoImage recipe, e.name⟩], acc.2)
      | Except.error msg => (acc.1, acc.2 ++ [⟨e.name, msg⟩]))
    ([], [])

/-- C7: a Paprika archive holding one valid gzip-compressed entry and one
corrupted (non-gzip) entry — in either order — extracts exactly the one
valid recipe, records exactly one warning naming the corrupted entry, and
returns normally (the per-entry failure never escapes). -/
theorem claimC7_prop (n1 n2 : String) (r : PaprikaRecipe)
    (h1 : isPaprikaName n1 = true) (h2 : isPaprikaName n2 = true) :
    extractPaprikaRecipes [⟨n1, EntryBlob.gzJson r⟩, ⟨n2, EntryBlob.notGzip⟩] =
      ([⟨r, firstPhotoImage r, n1⟩], [⟨n2, "incorrect header check"⟩])
    ∧ extractPaprikaRecipes [⟨n2, EntryBlob.notGzip⟩, ⟨n1, EntryBlob.gzJson r⟩] =
      ([⟨r, firstPhotoImage r, n1⟩], [⟨n2, "incorrect header check"⟩]) := by
  constructor <;>
    simp [extractPaprikaRecipes, List.filter, h1, h2, decodeEntry, List.foldl]

/-- A concrete valid Paprika recipe. -/
def paprikaTea : PaprikaRecipe :=
  ⟨"Tea", some "1 cup water", some "Boil water", [], []⟩

/-- C7 witness: the theorem applied to concrete entry names. -/
theorem claimC7_witness :
    extractPaprikaRecipes
      [⟨"good.paprikarecipe", EntryBlob.gzJson paprikaTea⟩,
       ⟨"bad.PaprikaRecipe", EntryBlob.notGzip⟩] =
      ([⟨paprikaTea, firstPhotoImage paprikaTea, "good.paprikarecipe"⟩],
       [⟨"bad.PaprikaRecipe", "incorrect header check"⟩]) :=
  (claimC7_prop "good.paprikarecipe" "bad.PaprikaRecipe" paprikaTea
    (by decide) (by decide)).1

/-! ## Video candidates (src/server/parser/parsers/videos.ts)

`parseVideos` walks the JSON-LD `video` field.  `VNode` embeds the JSON
values it inspects (objects restricted to the fields read: `@type`, `type`,
`contentUrl`, `url`, `thumbnailUrl`, `duration`, `name`, `description`).
The download/convert/save chain (`yt-dlp`, `ffmpeg`, `saveVideoFile`) is an
external collaborator; its per-candidate outcome — `null` exactly when
`downloadAndSaveVideo` catches a failure — is a function parameter. -/

inductive VNode where
  | vnull : VNode
  | vstr : String → VNode
  | vnum : Int → VNode
  | varr : List VNode → VNode
  | vobj : Option VNode → Option VNode → Option VNode → Option VNode →
      Option VNode → Option VNode → Option VNode → Option VNode → VNode

open VNode

/-- Is the video-field value the JSON null? -/
def isNullV : VNode → Bool
  | vnull => true
  | _ => false

/-- JS `String(v)` on an embedded video-field value. -/
def vString : VNode → String
  | vnull => "null"
  | vstr s => s
  | vnum n => toString n
  | vobj _ _ _ _ _ _ _ _ => "[object Object]"
  | varr l =>
    String.intercalate "," (l.attach.map fun x =>
      if isNullV x.1 then "" else vString x.1)
termination_by n => sizeOf n
decreasing_by
  have := List.sizeOf_lt_of_mem x.2
  simp at this ⊢
  omega

/-- JS `??` on the video object's type fields. -/
def coalesceV (a b : Option VNode) : Option VNode :=
  match a with
  | none => b
  | some vnull => b
  | some v => some v

/-- `typeof v === "string"` projection. -/
def strOrNoneV : Option VNode → Option String
  | some (vstr s) => some s
  | _ => none

/-- JS truthiness of an embedded video-field value. -/
def truthyV : VNode → Bool
  | vnull => false
  | vstr s => !s.data.isEmpty
  | vnum n => n != 0
  | varr _ => true
  | vobj _ _ _ _ _ _ _ _ => true

/-- Truthiness of an optional string (`""` and absent are falsy). -/
def strTruthy : Option String → Bool
  | some s => !s.data.isEmpty
  | none => false

/-- JS `a || b` on optional strings. -/
def orStr (a b : Option String) : Option String :=
  if strTruthy a then a else if strTruthy b then b else none

/-- A normalized `VideoObjectCandidate`. -/
structure VideoCandidate where
  contentUrl : Option String
  url : Option String
  thumbnailUrl : Option VNode
  duration : Option String
  name : Option String
  description : Option String

/-- The `@type ?? type` string of a VideoObject node: arrays join with `,`
then lowercase, other values go through `String(v).toLowerCase()`
(`String(undefined)` is `"undefined"`). -/
def videoTypeStr (a b : Option VNode) : String :=
  match coalesceV a b with
  | none => "undefined"
  | some (varr l) => jsLower (String.intercalate "," (l.map vString))
  | some vnull => "null"
  | some (vstr s) => jsLower s
  | some (vnum n) => jsLower (toString n)
  | some (vobj _ _ _ _ _ _ _ _) => jsLower "[object Object]" 

/-- `normalizeVideoObject`: case-insensitive `VideoObject` type check and a
truthy `contentUrl` or `url` are required; `name`/`description` are decoded
and trimmed. -/
def normalizeVideoObject : VNode → Option VideoCandidate
  | vobj aT tF cU u tU d nF dF =>
    if !strIncludes (videoTypeStr aT tF) "videoobject" then none
    else
      let contentUrl := strOrNoneV cU
      let url := strOrNoneV u
      if !strTruthy contentUrl && !strTruthy url then none
      else some ⟨contentUrl, url, tU, strOrNoneV d,
        (strOrNoneV nF).map jsTrim, (strOrNoneV dF).map jsTrim⟩
  | _ => none

/-- `extractVideoCandidates`: element-wise over an array, single node
otherwise (falsy fields yield no candidates). -/
def extractVideoCandidates : VNode → List VideoCandidate
  | varr l => l.filterMap normalizeVideoObject
  | v => (normalizeVideoObject v).toList

/-- `extractThumbnailUrl`: a plain string passes through unchanged; an
array yields its first non-blank string, trimmed. -/
def firstValidUrl : List VNode → Option String
  | [] => none
  | vstr s :: rest =>
    if (jsTrim s).data.isEmpty then firstValidUrl rest else some (jsTrim s)
  | _ :: rest => firstValidUrl rest

/-- `extractThumbnailUrl` from videos.ts. -/
def extractThumbnailUrl (thumbnailUrl : Option VNode) : Option String :=
  match thumbnailUrl with
  | none => none
  | some v =>
    if !truthyV v then none
    else
      match v with
      | vstr s => some s
      | varr l => firstValidUrl l
      | _ => none

/-- Fractional value of the digit run after a decimal point. -/
def fracVal (ds : List Char) : ℚ :=
  (parseNatDigits ds : ℚ) / (10 : ℚ) ^ ds.length

/-- JS `parseFloat` without sign: leading digits, optional `.digits`
(exponent notation is not modeled; no duration string uses it). -/
def parseUnsignedFloat (cs : List Char) : Option ℚ :=
  let ip := cs.takeWhile Char.isDigit
  match cs.dropWhile Char.isDigit with
  | '.' :: t =>
    let fp := t.takeWhile Char.isDigit
    if ip.isEmpty then
      if fp.isEmpty then none else some (fracVal fp)
    else some ((parseNatDigits ip : ℚ) + fracVal fp)
  | _ => if ip.isEmpty then none else some ((parseNatDigits ip : ℚ))

/-- JS `parseFloat`: skip leading whitespace, optional sign. -/
def parseFloatChars (cs0 : List Char) : Option ℚ :=
  let cs1 := cs0.dropWhile isWs
  if cs1.head? = some '-' then (parseUnsignedFloat cs1.tail).map Neg.neg
  else if cs1.head? = some '+' then parseUnsignedFloat cs1.tail
  else parseUnsignedFloat cs1

/-- The seconds group `(?:(\d+(?:\.\d+)?)S)?` of the anchored duration
regex: digits, optional fraction, then `S` (case-insensitive). -/
def secGroup (cs : List Char) : ℚ × List Char :=
  let ds := cs.takeWhile Char.isDigit
  if ds.isEmpty then (0, cs)
  else
    match cs.dropWhile Char.isDigit with
    | '.' :: t =>
      let fp := t.takeWhile Char.isDigit
      if fp.isEmpty then (0, cs)
      else
        match t.dropWhile Char.isDigit with
        | c :: r =>
          if c.toLower = 's' then ((parseNatDigits ds : ℚ) + fracVal fp, r)
          else (0, cs)
        | [] => (0, cs)
    | c :: r => if c.toLower = 's' then ((parseNatDigits ds : ℚ), r) else (0, cs)
    | [] => (0, cs)

/-- The anchored ISO duration regex of videos.ts,
`^PT(?:(\d+)H)?(?:(\d+)M)?(?:(\d+(?:\.\d+)?)S)?$/i`, in seconds. -/
def isoSecondsAnchored (cs : List Char) : Option ℚ :=
  match cs with
  | p :: t :: rest =>
    if p.toLower = 'p' ∧ t.toLower = 't' then
      let hr := match isoGroup 'h' rest with
        | some (h, r) => ((h : ℚ), r)
        | none => (0, rest)
      let mr := match isoGroup 'm' hr.2 with
        | some (m, r) => ((m : ℚ), r)
        | none => (0, hr.2)
      let sr := secGroup mr.2
      if sr.2.isEmpty then some (hr.1 * 3600 + mr.1 * 60 + sr.1) else none
    else none
  | _ => none

/-- `parseDuration` from videos.ts: numeric strings (not starting with the
capital `P`) are already seconds; otherwise the anchored ISO form. -/
def parseVideoDuration (d : Option String) : Option ℚ :=
  match d with
  | none => none
  | some s =>
    match parseFloatChars s.data with
    | some v =>
      if s.data.head? = some 'P' then isoSecondsAnchored s.data else some v
    | none => isoSecondsAnchored s.data

/-- A `ParsedVideo` of videos.ts. -/
structure ParsedVideo where
  video : String
  thumbnail : Option String
  duration : Option ℚ
  order : Nat
  deriving DecidableEq

/-- Outcome of the external save: stored path and final duration. -/
structure SavedVideo where
  video : String
  duration : Option ℚ
  deriving DecidableEq

/-- Per-attempt outcome of the external download/convert/save chain, keyed
by candidate index, video URL and duration hint (`none`: the caught
failure path of `downloadAndSaveVideo`). -/
abbrev VideoDownloader := Nat → String → Option ℚ → Option SavedVideo

/-- `downloadAndSaveVideo`: on success a `ParsedVideo` carrying the passed
thumbnail and order; on any failure `null` (the exception is caught). -/
def downloadAndSaveVideo (dl : VideoDownloader) (videoUrl : String)
    (order : Nat) (thumbnailUrl : Option String) (durationHint : Option ℚ) :
    Option ParsedVideo :=
  match dl order videoUrl durationHint with
  | none => none
  | some sv => some ⟨sv.video, thumbnailUrl, sv.duration, order⟩

/-- The `for` loop of `parseVideos` over the first `maxVideos` candidates,
with the loop index made explicit. -/
def parseVideosGo (dl : VideoDownloader) : Nat → List VideoCandidate →
    List ParsedVideo
  | _, [] => []
  | i, c :: cs =>
    match orStr c.contentUrl c.url with
    | none => parseVideosGo dl (i + 1) cs
    | some videoUrl =>
      match downloadAndSaveVideo dl videoUrl i
        (extractThumbnailUrl c.thumbnailUrl) (parseVideoDuration c.duration) with
      | some pv => pv :: parseVideosGo dl (i + 1) cs
      | none => parseVideosGo dl (i + 1) cs

/-- `parseVideos` from videos.ts. -/
def parseVideos (dl : VideoDownloader) (videoField : VNode)
    (maxVideos : Nat := 3) : List ParsedVideo :=
  if !truthyV videoField then []
  else
    let candidates := extractVideoCandidates videoField
    if candidates.isEmpty then []
    else parseVideosGo dl 0 (candidates.take maxVideos)

/-- One loop iteration as a function of the (index, candidate) pair. -/
def attemptVideo (dl : VideoDownloader) (p : Nat × VideoCandidate) :
    Option ParsedVideo :=
  match orStr p.2.contentUrl p.2.url with
  | none => none
  | some u =>
    downloadAndSaveVideo dl u p.1 (extractThumbnailUrl p.2.thumbnailUrl)
      (parseVideoDuration p.2.duration)

theorem parseVideosGo_eq_filterMap (dl : VideoDownloader)
    (cs : List VideoCandidate) :
    ∀ i, parseVideosGo dl i cs = (cs.enumFrom i).filterMap (attemptVideo dl) := by
  induction cs with
  | nil => intro i; rfl
  | cons c cs ih =>
    intro i
    rw [parseVideosGo, List.enumFrom, List.filterMap_cons]
    rcases ho : orStr c.contentUrl c.url with _ | u
    · have ha2 : attemptVideo dl (i, c) = none := by
        simp only [attemptVideo, ho]
      simp only [ho, ha2]
      exact ih (i + 1)
    · rcases hd : downloadAndSaveVideo dl u i
        (extractThumbnailUrl c.thumbnailUrl) (parseVideoDuration c.duration)
        with _ | pv
      · have ha2 : attemptVideo dl (i, c) = none := by
          simp only [attemptVideo, ho, hd]
        simp only [ho, hd, ha2]
        exact ih (i + 1)
      · have ha2 : attemptVideo dl (i, c) = some pv := by
          simp only [attemptVideo, ho, hd]
        simp only [ho, hd, ha2]
        exact congrArg _ (ih (i + 1))

theorem parseVideosGo_orders (dl : VideoDownloader) (cs : List VideoCandidate) :
    ∀ i, (∀ pv ∈ parseVideosGo dl i cs,
        i ≤ pv.order ∧ pv.order < i + cs.length)
      ∧ List.Pairwise (fun a b : ParsedVideo => a.order < b.order)
          (parseVideosGo dl i cs) := by
  induction cs with
  | nil =>
    intro i
    constructor
    · intro pv h
      simp [parseVideosGo] at h
    · exact List.Pairwise.nil
  | cons c cs ih =>
    intro i
    rw [parseVideosGo]
    rcases ho : orStr c.contentUrl c.url with _ | u
    · simp only [ho]
      refine ⟨fun pv h => ?_, (ih (i + 1)).2⟩
      have := (ih (i + 1)).1 pv h
      simp only [List.length_cons]
      omega
    · simp only [ho]
      rcases hd : downloadAndSaveVideo dl u i
        (extractThumbnailUrl c.thumbnailUrl) (parseVideoDuration c.duration)
        with _ | pv
      · simp only [hd]
        refine ⟨fun pv h => ?_, (ih (i + 1)).2⟩
        have := (ih (i + 1)).1 pv h
        simp only [List.length_cons]
        omega
      · simp only [hd]
        have hpv : pv.order = i := by
          rw [downloadAndSaveVideo] at hd
          rcases hdl : dl i u (parseVideoDuration c.duration) with _ | sv
          · rw [hdl] at hd; cases hd
          · rw [hdl] at hd
            injection hd with hd
            rw [← hd]
        constructor
        · intro pv2 h2
          rcases List.mem_cons.mp h2 with rfl | h2
          · simp only [List.length_cons, hpv]
            omega
          · have := (ih (i + 1)).1 pv2 h2
            simp only [List.length_cons]
            omega
        · refine List.Pairwise.cons (fun b hb => ?_) (ih (i + 1)).2
          have := (ih (i + 1)).1 b hb
          omega

/-- C8: `parseVideos` is the sequential loop over at most the first
`maxVideos` candidates: the result equals the index-tagged `filterMap` of
the loop body over `take maxVideos` of the candidates — so a failing
candidate is skipped without aborting the rest and contributes nothing —
the result holds at most `maxVideos` entries, their `order` fields are
strictly increasing (original order preserved) and all below `maxVideos`
(no candidate past the cap is processed).  The embedding is a total
function: per-candidate failure never escapes as an exception. -/
theorem claimC8_prop (dl : VideoDownloader) (videoField : VNode)
    (maxVideos : Nat) :
    parseVideos dl videoField maxVideos =
      ((extractVideoCandidates videoField).take maxVideos).enum.filterMap
        (attemptVideo dl)
    ∧ (parseVideos dl videoField maxVideos).length ≤ maxVideos
    ∧ List.Pairwise (fun a b : ParsedVideo => a.order < b.order)
        (parseVideos dl videoField maxVideos)
    ∧ (∀ pv ∈ parseVideos dl videoField maxVideos, pv.order < maxVideos) := by
  have hmain : parseVideos dl videoField maxVideos =
      parseVideosGo dl 0 ((extractVideoCandidates videoField).take maxVideos) := by
    rw [parseVideos]
    by_cases ht : truthyV videoField = true
    · simp only [ht, Bool.not_true, Bool.false_eq_true, if_false]
      by_cases hc : (extractVideoCandidates videoField).isEmpty = true
      · rw [if_pos hc]
        rw [List.isEmpty_iff] at hc
        rw [hc, List.take_nil]
        rfl
      · rw [if_neg hc]
    · have ht2 : truthyV videoField = false := by simpa using ht
      simp only [ht2, Bool.not_false, if_true]
      have hcand : extractVideoCandidates videoField = [] := by
        rcases videoField with _ | s | n | l | ⟨a1, a2, a3, a4, a5, a6, a7, a8⟩
        · rfl
        · rfl
        · rfl
        · simp [truthyV] at ht2
        · simp [truthyV] at ht2
      rw [hcand, List.take_nil]
      rfl
  refine ⟨?_, ?_, ?_, ?_⟩
  · rw [hmain, parseVideosGo_eq_filterMap]
    rfl
  · rw [hmain, parseVideosGo_eq_filterMap dl _ 0]
    have h1 := List.length_filterMap_le (attemptVideo dl)
      (((extractVideoCandidates videoField).take maxVideos).enumFrom 0)
    have h2 : (((extractVideoCandidates videoField).take maxVideos).enumFrom 0).length
        = ((extractVideoCandidates videoField).take maxVideos).length := by
      simp
    have h3 : ((extractVideoCandidates videoField).take maxVideos).length
        ≤ maxVideos := by
      rw [List.length_take]
      exact min_le_left _ _
    omega
  · rw [hmain]
    exact (parseVideosGo_orders dl _ 0).2
  · intro pv hpv
    rw [hmain] at hpv
    have := (parseVideosGo_orders dl
      ((extractVideoCandidates videoField).take maxVideos) 0).1 pv hpv
    have hlen : ((extractVideoCandidates videoField).take maxVideos).length
        ≤ maxVideos := by simp
    omega

/-- A downloader that fails exactly on the second candidate. -/
def dlSkipSecond : VideoDownloader := fun i u _ =>
  if i = 1 then none else some ⟨u, none⟩

/-- Three VideoObject candidates with content URLs `u0`, `u1`, `u2`. -/
def videoFieldThree : VNode :=
  varr [vobj (some (vstr "VideoObject")) none (some (vstr "u0")) none none none none none,
        vobj (some (vstr "VideoObject")) none (some (vstr "u1")) none none none none none,
        vobj (some (vstr "VideoObject")) none (some (vstr "u2")) none none none none none]

/-- C8 witness: with the middle download failing, the first and third
candidates still process, in order, with orders `0` and `2`; the theorem
bounds the order of a member below `maxVideos`. -/
theorem claimC8_witness :
    parseVideos dlSkipSecond videoFieldThree 3 =
      [⟨"u0", none, none, 0⟩, ⟨"u2", none, none, 2⟩]
    ∧ (⟨"u2", none, none, 2⟩ : ParsedVideo).order < 3 :=
  ⟨by decide,
   (claimC8_prop dlSkipSecond videoFieldThree 3).2.2.2
     ⟨"u2", none, none, 2⟩ (by decide)⟩

/-! ## Ingredient store-preference matching
(src/server/db/repositories/stores.ts)

The database read (`listIngredientStorePreferencesForUsers`) and the
Fuse.js fuzzy search are external collaborators: the household's stored
preferences and the ranked search results are parameters.  Fuse returns
its matches ranked best (lowest score) first; the sortedness assumption
appears as an explicit hypothesis where "best" is asserted. -/

/-- One stored ingredient→store preference row. -/
structure StorePref where
  userId : String
  normalizedName : String
  storeId : String
  deriving DecidableEq

/-- `replace(/\s+/g, " ")`: collapse every whitespace run to one space. -/
def collapseWs : List Char → List Char
  | [] => []
  | c :: t =>
    if isWs c then
      match t with
      | c2 :: _ => if isWs c2 then collapseWs t else ' ' :: collapseWs t
      | [] => [' ']
    else c :: collapseWs t

/-- `normalizeIngredientName` from stores.ts:
`name.toLowerCase().trim().replace(/\s+/g, " ")`. -/
def normalizeIngredientName (name : String) : String :=
  ⟨collapseWs (jsTrim (jsLower name)).data⟩

/-- `FuzzyPreferenceMatch` from stores.ts. -/
structure FuzzyPreferenceMatch where
  preference : StorePref
  score : ℚ
  isExactMatch : Bool
  isCurrentUser : Bool
  deriving DecidableEq

/-- One ranked Fuse.js result (`includeScore: true`). -/
structure FuseResult where
  item : StorePref
  score : Option ℚ
  deriving DecidableEq

/-- `findBestIngredientStorePreference` from stores.ts, with the DB rows
(`allPreferences`) and the Fuse search as parameters. -/
def findBestIngredientStorePreference (currentUserId : String)
    (userIds : List String) (searchName : String)
    (allPreferences : List StorePref) (fuse : String → List FuseResult) :
    Option FuzzyPreferenceMatch :=
  if userIds.isEmpty || (jsTrim searchName).data.isEmpty then none
  else
    let normalizedSearch := normalizeIngredientName searchName
    if allPreferences.isEmpty then none
    else
      match allPreferences.find? fun p =>
        p.userId == currentUserId && p.normalizedName == normalizedSearch with
      | some p => some ⟨p, 0, true, true⟩
      | none =>
        match allPreferences.find? fun p =>
          p.userId != currentUserId && p.normalizedName == normalizedSearch with
        | some p => some ⟨p, 0, true, false⟩
        | none =>
          let results := fuse normalizedSearch
          if results.isEmpty then none
          else
            match results.filter fun r => r.item.userId == currentUserId with
            | b :: _ => some ⟨b.item, b.score.getD 1, false, true⟩
            | [] =>
              match results.filter fun r => r.item.userId != currentUserId with
              | b :: _ => some ⟨b.item, b.score.getD 1, false, false⟩
              | [] => none

/-- C9: `findBestIngredientStorePreference` returns null for a
whitespace-only search name and when the household has no stored
preferences; otherwise it selects by strict priority — the current user's
first exact normalized-name match (score 0), then any other household
member's exact match, then the current user's top-ranked fuzzy result,
then the top-ranked fuzzy result of the other members — and when Fuse's
ranking is sorted by ascending score, the fuzzy result chosen is a best
(minimal-score) match within its priority class. -/
theorem claimC9_prop (cur : String) (userIds : List String)
    (searchName : String) (prefs : List StorePref)
    (fuse : String → List FuseResult) :
    ((jsTrim searchName).data.isEmpty = true →
      findBestIngredientStorePreference cur userIds searchName prefs fuse = none)
    ∧ (prefs = [] →
      findBestIngredientStorePreference cur userIds searchName prefs fuse = none)
    ∧ (∀ p, userIds ≠ [] → (jsTrim searchName).data.isEmpty = false →
        prefs.find? (fun q => q.userId == cur &&
          q.normalizedName == normalizeIngredientName searchName) = some p →
        findBestIngredientStorePreference cur userIds searchName prefs fuse =
          some ⟨p, 0, true, true⟩)
    ∧ (∀ p, userIds ≠ [] → (jsTrim searchName).data.isEmpty = false →
        prefs.find? (fun q => q.userId == cur &&
          q.normalizedName == normalizeIngredientName searchName) = none →
        prefs.find? (fun q => q.userId != cur &&
          q.normalizedName == normalizeIngredientName searchName) = some p →
        findBestIngredientStorePreference cur userIds searchName prefs fuse =
          some ⟨p, 0, true, false⟩)
    ∧ (∀ b rest, userIds ≠ [] → (jsTrim searchName).data.isEmpty = false →
        prefs ≠ [] →
        prefs.find? (fun q => q.userId == cur &&
          q.normalizedName == normalizeIngredientName searchName) = none →
        prefs.find? (fun q => q.userId != cur &&
          q.normalizedName == normalizeIngredientName searchName) = none →
        (fuse (normalizeIngredientName searchName)).filter
          (fun r => r.item.userId == cur) = b :: rest →
        findBestIngredientStorePreference cur userIds searchName prefs fuse =
          some ⟨b.item, b.score.getD 1, false, true⟩
        ∧ (List.Pairwise (fun x y : FuseResult => x.score.getD 1 ≤ y.score.getD 1)
            (fuse (normalizeIngredientName searchName)) →
          ∀ r ∈ fuse (normalizeIngredientName searchName), r.item.userId = cur →
            b.score.getD 1 ≤ r.score.getD 1))
    ∧ (∀ b rest, userIds ≠ [] → (jsTrim searchName).data.isEmpty = false →
        prefs ≠ [] →
        prefs.find? (fun q => q.userId == cur &&
          q.normalizedName == normalizeIngredientName searchName) = none →
        prefs.find? (fun q => q.userId != cur &&
          q.normalizedName == normalizeIngredientName searchName) = none →
        (fuse (normalizeIngredientName searchName)).filter
          (fun r => r.item.userId == cur) = [] →
        (fuse (normalizeIngredientName searchName)).filter
          (fun r => r.item.userId != cur) = b :: rest →
        findBestIngredientStorePreference cur userIds searchName prefs fuse =
          some ⟨b.item, b.score.getD 1, false, false⟩
        ∧ (List.Pairwise (fun x y : FuseResult => x.score.getD 1 ≤ y.score.getD 1)
            (fuse (normalizeIngredientName searchName)) →
          ∀ r ∈ fuse (normalizeIngredientName searchName), r.item.userId ≠ cur →
            b.score.getD 1 ≤ r.score.getD 1)) := by
  have hbest : ∀ (p : FuseResult → Bool) b rest,
      (fuse (normalizeIngredientName searchName)).filter p = b :: rest →
      List.Pairwise (fun x y : FuseResult => x.score.getD 1 ≤ y.score.getD 1)
        (fuse (normalizeIngredientName searchName)) →
      ∀ r ∈ fuse (normalizeIngredientName searchName), p r = true →
        b.score.getD 1 ≤ r.score.getD 1 := by
    intro p b rest hfil hsort r hr hpr
    have hrf : r ∈ b :: rest := by
      rw [← hfil]
      exact List.mem_filter.mpr ⟨hr, hpr⟩
    rcases List.mem_cons.mp hrf with rfl | hrf
    · exact le_refl _
    · have hpw : List.Pairwise
          (fun x y : FuseResult => x.score.getD 1 ≤ y.score.getD 1)
          (b :: rest) := by
        rw [← hfil]
        exact List.Pairwise.sublist (List.filter_sublist _) hsort
      exact (List.pairwise_cons.mp hpw).1 r hrf
  refine ⟨?_, ?_, ?_, ?_, ?_, ?_⟩
  · intro h
    rw [findBestIngredientStorePreference, if_pos (by simp [h])]
  · intro h
    rw [findBestIngredientStorePreference]
    by_cases hc : (userIds.isEmpty || (jsTrim searchName).data.isEmpty) = true
    · rw [if_pos hc]
    · rw [if_neg hc, if_pos (by simp [h])]
  · intro p hu hs hfind
    rw [findBestIngredientStorePreference,
      if_neg (by simp [List.isEmpty_iff, hu, hs]),
      if_neg (by
        simp only [List.isEmpty_iff]
        intro hp
        rw [hp] at hfind
        cases hfind),
      hfind]
  · intro p hu hs hfind1 hfind2
    rw [findBestIngredientStorePreference,
      if_neg (by simp [List.isEmpty_iff, hu, hs]),
      if_neg (by
        simp only [List.isEmpty_iff]
        intro hp
        rw [hp] at hfind2
        cases hfind2),
      hfind1, hfind2]
  · intro b rest hu hs hp hfind1 hfind2 hfil
    have hres : (fuse (normalizeIngredientName searchName)).isEmpty = false := by
      rcases hfe : fuse (normalizeIngredientName searchName) with _ | ⟨x, xs⟩
      · rw [hfe] at hfil
        cases hfil
      · rfl
    constructor
    · rw [findBestIngredientStorePreference,
        if_neg (by simp [List.isEmpty_iff, hu, hs]),
        if_neg (by simp [List.isEmpty_iff, hp]),
        hfind1, hfind2]
      simp only [hres, Bool.false_eq_true, if_false, hfil]
    · intro hsort r hr hpr
      exact hbest _ b rest hfil hsort r hr (by simpa using hpr)
  · intro b rest hu hs hp hfind1 hfind2 hfil1 hfil2
    have hres : (fuse (normalizeIngredientName searchName)).isEmpty = false := by
      rcases hfe : fuse (normalizeIngredientName searchName) with _ | ⟨x, xs⟩
      · rw [hfe] at hfil2
        cases hfil2
      · rfl
    constructor
    · rw [findBestIngredientStorePreference,
        if_neg (by simp [List.isEmpty_iff, hu, hs]),
        if_neg (by simp [List.isEmpty_iff, hp]),
        hfind1, hfind2]
      simp only [hres, Bool.false_eq_true, if_false, hfil1, hfil2]
    · intro hsort r hr hpr
      exact hbest _ b rest hfil2 hsort r hr (by simpa using hpr)

/-- C9 witness: a household of two users where the current user has an
exact match for the (un-normalized) search name `" Milk "`. -/
theorem claimC9_witness :
    findBestIngredientStorePreference "u1" ["u1", "u2"] " Milk "
      [⟨"u2", "milk", "s2"⟩, ⟨"u1", "milk", "s1"⟩] (fun _ => []) =
      some ⟨⟨"u1", "milk", "s1"⟩, 0, true, true⟩ :=
  (claimC9_prop "u1" ["u1", "u2"] " Milk "
    [⟨"u2", "milk", "s2"⟩, ⟨"u1", "milk", "s1"⟩] (fun _ => [])).2.2.1
    ⟨"u1", "milk", "s1"⟩ (by decide) (by decide) (by decide)

/-! ## Recipe metadata (src/server/parser/parsers/metadata.ts)

`parseMetadata` reads a handful of fields of the JSON-LD recipe node; the
node is embedded by those fields, each an arbitrary JSON value (`JNode`). -/

/-- The fields of the JSON-LD recipe node read by `parseMetadata`. -/
structure MetaJson where
  nameF : Option JNode
  headlineF : Option JNode
  descriptionF : Option JNode
  recipeYieldF : Option JNode
  prepTimeF : Option JNode
  cookTimeF : Option JNode
  totalTimeF : Option JNode

/-- The capture of `^\[\s*'(.+)'\s*\]$` (the bracketed-name format): the
text between the quotes, which must be non-empty and — `.` not matching
line terminators — free of newlines. -/
def bracketInner (cs : List Char) : Option (List Char) :=
  match cs with
  | '[' :: r1 =>
    match r1.dropWhile isWs with
    | '\'' :: r2 =>
      match r2.reverse with
      | ']' :: r3 =>
        match r3.dropWhile isWs with
        | '\'' :: revMid =>
          if revMid.isEmpty then none
          else if revMid.any (fun c => c = '\n' || c = '\r') then none
          else some revMid.reverse
        | _ => none
      | _ => none
    | _ => none
  | _ => none

/-- `getName` from metadata.ts: `name ?? headline`; arrays contribute
`String(raw[0] ?? "")`; strings have the bracketed format unwrapped; the
result collapses to absent when empty (`|| undefined`). -/
def getName (j : MetaJson) : Option String :=
  match coalesce j.nameF j.headlineF with
  | some (jarr l) =>
    let first := match l.head? with
      | none => jstr ""
      | some jnull => jstr ""
      | some v => v
    nonEmptyStr (some (jsString first))
  | some (jstr s) => nonEmptyStr (some ⟨(bracketInner s.data).getD s.data⟩)
  | _ => none

/-- First `\d+` run of a string, as a number (`match(/\d+/)` + `parseInt`). -/
def firstDigitRun : List Char → Option Nat
  | [] => none
  | c :: t =>
    if c.isDigit then some (parseNatDigits ((c :: t).takeWhile Char.isDigit))
    else firstDigitRun t

/-- The per-value scan of `getServings`: finite numbers pass through,
strings contribute their first digit run, other values are skipped. -/
def firstServing : List JNode → Option Int
  | [] => none
  | jnum n :: _ => some n
  | jstr s :: rest =>
    match firstDigitRun s.data with
    | some k => some (k : Int)
    | none => firstServing rest
  | _ :: rest => firstServing rest

/-- `getServings` from metadata.ts (embedded JSON numbers are integers,
hence always finite). -/
def getServings (recipeYield : Option JNode) : Option Int :=
  match recipeYield with
  | none => none
  | some jnull => none
  | some (jarr l) => firstServing l
  | some v => firstServing [v]

/-- `ParsedMetadata` from metadata.ts. -/
structure ParsedMetadata where
  name : String
  description : Option String
  servings : Option Int
  prepMinutes : Option Nat
  cookMinutes : Option Nat
  totalMinutes : Option Nat

/-- `parseMetadata` from metadata.ts. -/
def parseMetadata (j : MetaJson) : ParsedMetadata :=
  { name := (getName j).getD "Untitled recipe"
    description := strOrNone j.descriptionF
    servings := getServings j.recipeYieldF
    prepMinutes := (strOrNone j.prepTimeF).bind parseIsoDuration
    cookMinutes := (strOrNone j.cookTimeF).bind parseIsoDuration
    totalMinutes := (strOrNone j.totalTimeF).bind parseIsoDuration }

/-- C10: `parseMetadata` is total (the embedding is a plain function — no
error path exists), and whenever neither `name` nor `headline` yields a
non-empty string (`getName` is absent), the produced metadata carries the
literal name `"Untitled recipe"`, so the JSON-LD normalization path still
assembles a DTO for a nameless recipe. -/
theorem claimC10_prop (j : MetaJson) (h : getName j = none) :
    (parseMetadata j).name = "Untitled recipe" := by
  simp [parseMetadata, h]

/-- C10 witness: a node whose `name` is the empty string and whose
`headline` is null. -/
theorem claimC10_witness :
    (parseMetadata ⟨some (jstr ""), some jnull, none, none, none, none, none⟩).name
      = "Untitled recipe" :=
  claimC10_prop ⟨some (jstr ""), some jnull, none, none, none, none, none⟩
    (by decide)

end Norish
